import Mathlib

/-!
# microblog: versioned read-through / write-invalidate cache

A shallow embedding of `model.go` (package `main` of `ilyakaznacheev/microblog`).

* The Redis server and the PostgreSQL table are external services; they are
  modelled as explicit store states (`Redis`, `DB`) that the handler functions
  read and return.  A store whose `up` flag is `false` fails every call.
* `encoding/json` is an external library; the functions the code calls are
  taken as a parameter (`JSON`), with the round-trip laws stated in
  `JSON.Lawful`.  `refJSON` is a concrete instance.
* A Go function returning `(value, error)` that may also `log.Panic` is
  modelled with the three-way `Outcome`.
-/

set_option autoImplicit false

/-! ## Decimal formatting and parsing (`%d`, `strconv.Atoi`, Redis integers) -/

/-- The character of a decimal digit. -/
def digitChar (d : Nat) : Char := Char.ofNat (48 + d)

/-- Decimal digits of `n`, most significant first, pushed in front of `acc`;
the first argument is recursion fuel. -/
def natDigitsAux : Nat → Nat → List Char → List Char
  | 0, _, acc => acc
  | fuel + 1, n, acc =>
    if n / 10 = 0 then digitChar (n % 10) :: acc
    else natDigitsAux fuel (n / 10) (digitChar (n % 10) :: acc)

/-- Decimal digits of a natural number. -/
def natDigits (n : Nat) : List Char := natDigitsAux (n + 1) n []

/-- The text `fmt.Sprintf("%d", n)` produces; also the canonical text Redis
stores for an integer value. -/
def formatInt : Int → String
  | Int.ofNat n => String.mk (natDigits n)
  | Int.negSucc n => String.mk ('-' :: natDigits (n + 1))

/-- Value of a decimal digit character. -/
def digitVal (c : Char) : Option Nat :=
  if 48 ≤ c.toNat ∧ c.toNat ≤ 57 then some (c.toNat - 48) else none

/-- Reads a run of decimal digits, continuing from the value `acc`. -/
def parseDigits : List Char → Nat → Option Nat
  | [], acc => some acc
  | c :: cs, acc =>
    match digitVal c with
    | some d => parseDigits cs (acc * 10 + d)
    | none => none

/-- Go `strconv.Atoi`: an optional sign followed by at least one decimal digit;
`none` stands for the returned error.  The 64-bit range check is left out (the
model's integers are unbounded). -/
def Atoi (s : String) : Option Int :=
  match s.data with
  | [] => none
  | c :: cs =>
    if c = '-' then
      if cs = [] then none else (parseDigits cs 0).map (fun n => -(n : Int))
    else if c = '+' then
      if cs = [] then none else (parseDigits cs 0).map (fun n => (n : Int))
    else (parseDigits (c :: cs) 0).map (fun n => (n : Int))

/-- Redis reads a stored string as an integer only when it is the canonical
decimal text of that integer (no sign `+`, no leading zeros, no `-0`). -/
def string2ll (s : String) : Option Int :=
  match Atoi s with
  | some n => if formatInt n = s then some n else none
  | none => none

/-- The int32 conversion `int32(x)` of Go: the value modulo `2^32`, taken in
the signed range. -/
def toInt32 (x : Int) : Int := (x + 2147483648) % 4294967296 - 2147483648

/-! ## Errors and outcomes -/

/-- The errors the stores and the cache read can return. -/
inductive Err where
  /-- The error `redis.Nil`: the key does not exist. -/
  | redisNil
  /-- The Redis connection failed. -/
  | redisDown
  /-- Redis `INCR` on a value that is not an integer. -/
  | redisNotInt
  /-- The error `ErrRedisCacheVersion`, "cache outdated". -/
  | ErrRedisCacheVersion
  /-- The error `pg.ErrNoRows`: no row for the primary key. -/
  | pgNoRows
  /-- The PostgreSQL connection failed. -/
  | pgDown
  /-- Primary-key violation on insert. -/
  | pgUnique
  deriving DecidableEq, Repr

/-- What a call of a Go function `f(...) (T, error)` does: return a value with a
nil error, return an error, or abort through `log.Panic`. -/
inductive Outcome (α : Type) where
  | ok (v : α)
  | error (e : Err)
  | panic
  deriving DecidableEq, Repr

/-! ## Data model -/

/-- Key namespace constants of `model.go`. -/
def redKey : String := "microblog"
/-- Key segment of the change counters. -/
def redChangeKey : String := "last-change"
/-- Scope kind of one post. -/
def redPostKey : String := "post-key"
/-- Scope kind of the post list. -/
def redPostListKey : String := "post-list"

/-- Go struct `Post`. `ReadCount` is not a database column (`sql:"-"`). -/
structure Post where
  ID : Int
  Title : String
  Description : String
  ShortText : String
  FullText : String
  URI : String
  ReadCount : Int
  deriving DecidableEq, Repr

/-- Go struct `postInput` of `resolver.go`. -/
structure postInput where
  ID : Int
  Title : String
  Description : String
  ShortText : String
  FullText : String
  URI : String
  deriving DecidableEq, Repr

/-- Go struct `RedisContainer`: the cache envelope. -/
structure RedisContainer where
  Version : Int
  Content : String
  deriving DecidableEq, Repr

/-- The zero value `Post{}`. -/
def Post.zero : Post := ⟨0, "", "", "", "", "", 0⟩

/-- The zero value `RedisContainer{}`. -/
def RedisContainer.zero : RedisContainer := ⟨0, ""⟩

/-- The calls of `encoding/json` made by `model.go`.  `json.Unmarshal` is given
as the value it leaves in a zero-initialised target together with a flag that
is `true` when it returned no error (the code discards that error). -/
structure JSON where
  marshalContainer : RedisContainer → String
  unmarshalContainer : String → RedisContainer × Bool
  marshalPost : Post → String
  unmarshalPost : String → Post × Bool
  marshalPosts : List Post → String
  unmarshalPosts : String → List Post × Bool

/-- Round-trip laws of `encoding/json` on the three types that are cached. -/
structure JSON.Lawful (J : JSON) : Prop where
  container : ∀ c, J.unmarshalContainer (J.marshalContainer c) = (c, true)
  post : ∀ p, J.unmarshalPost (J.marshalPost p) = (p, true)
  posts : ∀ ps, J.unmarshalPosts (J.marshalPosts ps) = (ps, true)

/-! ## The durable store (PostgreSQL table behind `dbHandler`) -/

/-- A row of the post table. -/
structure Row where
  id : Int
  title : String
  description : String
  shorttext : String
  fulltext : String
  uri : String
  deriving DecidableEq, Repr

/-- The struct go-pg fills from a row. -/
def Row.toPost (r : Row) : Post :=
  ⟨r.id, r.title, r.description, r.shorttext, r.fulltext, r.uri, 0⟩

/-- The columns go-pg writes for a struct. -/
def Post.toRow (p : Post) : Row :=
  ⟨p.ID, p.Title, p.Description, p.ShortText, p.FullText, p.URI⟩

/-- State of the database: connection flag, table content, and the sequence
that assigns identities on insert. -/
structure DB where
  up : Bool
  rows : List Row
  seq : Int
  deriving DecidableEq, Repr

/-- The row stored under a primary key. -/
def DB.lookup (db : DB) (id : Int) : Option Row :=
  db.rows.find? (fun r => r.id = id)

namespace dbHandler

/-- Go `dbHandler.getPost`: `db.Select(&Post{ID: id})`. -/
def getPost (db : DB) (id : Int) : Except Err Post :=
  if db.up then
    match db.lookup id with
    | some r => .ok r.toPost
    | none => .error Err.pgNoRows
  else .error Err.pgDown

/-- Go `dbHandler.getPostList`: `db.Model(&posts).Select()`. -/
def getPostList (db : DB) : Except Err (List Post) :=
  if db.up then .ok (db.rows.map Row.toPost) else .error Err.pgDown

/-- Go `dbHandler.createPost`: insert with the identity taken from the
sequence (`Returning("id")`); returns the struct with its identity filled in.
A sequence value that was drawn stays drawn when the insert then fails on the
primary key. -/
def createPost (db : DB) (post : Post) : Except Err Post × DB :=
  if db.up then
    let id := db.seq + 1
    match db.lookup id with
    | some _ => (.error Err.pgUnique, { db with seq := id })
    | none =>
      let p : Post := { post with ID := id }
      (.ok p, { db with rows := db.rows ++ [p.toRow], seq := id })
  else (.error Err.pgDown, db)

/-- Go `dbHandler.updatePost`: `db.Update(post)`, which reports `pg.ErrNoRows`
when no row has the primary key. -/
def updatePost (db : DB) (post : Post) : Except Err DB :=
  if db.up then
    match db.lookup post.ID with
    | some _ =>
      .ok { db with rows := db.rows.map (fun r => if r.id = post.ID then post.toRow else r) }
    | none => .error Err.pgNoRows
  else .error Err.pgDown

/-- Go `dbHandler.deletePost`: `db.Delete(&Post{ID: id})`. -/
def deletePost (db : DB) (id : Int) : Except Err DB :=
  if db.up then
    match db.lookup id with
    | some _ => .ok { db with rows := db.rows.filter (fun r => ¬ r.id = id) }
    | none => .error Err.pgNoRows
  else .error Err.pgDown

end dbHandler

/-! ## The counter / cache store (Redis behind `redisHandler`) -/

/-- State of the Redis server: connection flag and the string stored under
each key. -/
structure Redis where
  up : Bool
  kv : String → Option String

/-- A reachable server with no keys. -/
def Redis.empty : Redis := ⟨true, fun _ => none⟩

/-- Redis `GET`. -/
def Redis.Get (r : Redis) (k : String) : Except Err String :=
  if r.up then
    match r.kv k with
    | some v => .ok v
    | none => .error Err.redisNil
  else .error Err.redisDown

/-- Redis `SET` without expiry. -/
def Redis.Set (r : Redis) (k v : String) : Except Err Redis :=
  if r.up then .ok { r with kv := Function.update r.kv k (some v) }
  else .error Err.redisDown

/-- Redis `INCR`: an absent key counts as 0; the new value is stored and
returned. (The 64-bit overflow error of Redis is left out.) -/
def Redis.Incr (r : Redis) (k : String) : Except Err (Int × Redis) :=
  if r.up then
    match r.kv k with
    | none => .ok (1, { r with kv := Function.update r.kv k (some (formatInt 1)) })
    | some v =>
      match string2ll v with
      | some n => .ok (n + 1, { r with kv := Function.update r.kv k (some (formatInt (n + 1))) })
      | none => .error Err.redisNotInt
  else .error Err.redisDown

namespace redisHandler

/-- Key of the envelope of a scope: `fmt.Sprintf("%s:%s:%s", redKey, entity, key)`. -/
def entityKey (entity key : String) : String :=
  redKey ++ ":" ++ entity ++ ":" ++ key

/-- Key of the change counter of a scope:
`fmt.Sprintf("%s:%s:%s:%s", redKey, redChangeKey, entity, key)`. -/
def changeKey (entity key : String) : String :=
  redKey ++ ":" ++ redChangeKey ++ ":" ++ entity ++ ":" ++ key

/-- Key of the read counter: `fmt.Sprintf("%s:ctr:%s:%s", redKey, entity, key)`. -/
def readKey (entity key : String) : String :=
  redKey ++ ":ctr:" ++ entity ++ ":" ++ key

/-- Go `redisHandler.getChangeCounter`. -/
def getChangeCounter (rh : Redis) (entity key : String) : Outcome Int :=
  match rh.Get (changeKey entity key) with
  | .error e => .error e
  | .ok counterStr =>
    match Atoi counterStr with
    | none => .panic
    | some counter => .ok counter

/-- Go `redisHandler.get`. -/
def get (J : JSON) (rh : Redis) (entity key : String) : Outcome String :=
  match getChangeCounter rh entity key with
  | .panic => .panic
  | r =>
    let version : Int := match r with
      | .ok c => c
      | _ => 0
    match rh.Get (entityKey entity key) with
    | .error e => .error e
    | .ok responseData =>
      let container := (J.unmarshalContainer responseData).1
      if version > container.Version then .error Err.ErrRedisCacheVersion
      else .ok container.Content

/-- Go `redisHandler.set`. -/
def set (J : JSON) (rh : Redis) (entity key requestData : String) (version : Int) :
    Except Err Redis :=
  let container : RedisContainer := ⟨version, requestData⟩
  let requestJSON := J.marshalContainer container
  rh.Set (entityKey entity key) requestJSON

/-- Go `redisHandler.updateChangeCounter`: a failed `INCR` is logged and 0 is
returned. -/
def updateChangeCounter (rh : Redis) (entity key : String) : Int × Redis :=
  match rh.Incr (changeKey entity key) with
  | .ok (counter, rh1) => (counter, rh1)
  | .error _ => (0, rh)

/-- Go `redisHandler.updateReadCounter`. -/
def updateReadCounter (rh : Redis) (entity key : String) : Int × Redis :=
  match rh.Incr (readKey entity key) with
  | .ok (counter, rh1) => (counter, rh1)
  | .error _ => (0, rh)

end redisHandler

/-! ## The repository handler -/

/-- Go struct `repoHandler`: the states of the two stores it holds clients
for. (The mutex `dmx` serialises the three writers; a sequential run holds it
for the whole call.) -/
structure repoHandler where
  dbh : DB
  rdh : Redis

namespace repoHandler

/-- Go `repoHandler.getPost`. -/
def getPost (J : JSON) (h : repoHandler) (id : Int) : Outcome Post × repoHandler :=
  match redisHandler.get J h.rdh redPostKey (formatInt id) with
  | .panic => (.panic, h)
  | .ok cachedData => (.ok (J.unmarshalPost cachedData).1, h)
  | .error _ =>
    match dbHandler.getPost h.dbh id with
    | .error e => (.error e, h)
    | .ok post =>
      let (cacheVersion, rd1) := redisHandler.updateChangeCounter h.rdh redPostKey (formatInt id)
      let newCachedData := J.marshalPost post
      match redisHandler.set J rd1 redPostKey (formatInt id) newCachedData cacheVersion with
      | .error _ => (.panic, { h with rdh := rd1 })
      | .ok rd2 => (.ok post, { h with rdh := rd2 })

/-- Go `repoHandler.getPostList`. -/
def getPostList (J : JSON) (h : repoHandler) : Outcome (List Post) × repoHandler :=
  match redisHandler.get J h.rdh redPostListKey "" with
  | .panic => (.panic, h)
  | .ok cachedData => (.ok (J.unmarshalPosts cachedData).1, h)
  | .error _ =>
    match dbHandler.getPostList h.dbh with
    | .error e => (.error e, h)
    | .ok posts =>
      let (cacheVersion, rd1) := redisHandler.updateChangeCounter h.rdh redPostListKey ""
      let newCachedData := J.marshalPosts posts
      match redisHandler.set J rd1 redPostListKey "" newCachedData cacheVersion with
      | .error _ => (.panic, { h with rdh := rd1 })
      | .ok rd2 => (.ok posts, { h with rdh := rd2 })

/-- The struct `createPost` builds from its input. -/
def newPost (post : postInput) : Post :=
  ⟨0, post.Title, post.Description, post.ShortText, post.FullText, post.URI, 0⟩

/-- The struct `updatePost` builds from its inputs. -/
def updPost (id : Int) (post : postInput) : Post :=
  ⟨id, post.Title, post.Description, post.ShortText, post.FullText, post.URI, 0⟩

/-- Go `repoHandler.createPost`: returns `(newPost.ID, err)`. -/
def createPost (h : repoHandler) (post : postInput) : (Int × Option Err) × repoHandler :=
  match dbHandler.createPost h.dbh (newPost post) with
  | (.ok p, db1) =>
    let rd1 := (redisHandler.updateChangeCounter h.rdh redPostListKey "").2
    ((p.ID, none), ⟨db1, rd1⟩)
  | (.error e, db1) => (((newPost post).ID, some e), { h with dbh := db1 })

/-- Go `repoHandler.updatePost`: returns `(&PostRepr{data: updPost}, err)`. -/
def updatePost (h : repoHandler) (id : Int) (post : postInput) :
    (Post × Option Err) × repoHandler :=
  match dbHandler.updatePost h.dbh (updPost id post) with
  | .ok db1 =>
    let rd1 := (redisHandler.updateChangeCounter h.rdh redPostListKey "").2
    let rd2 := (redisHandler.updateChangeCounter rd1 redPostKey (formatInt (updPost id post).ID)).2
    ((updPost id post, none), ⟨db1, rd2⟩)
  | .error e => ((updPost id post, some e), h)

/-- Go `repoHandler.deletePost`. -/
def deletePost (h : repoHandler) (id : Int) : Option Err × repoHandler :=
  match dbHandler.deletePost h.dbh id with
  | .ok db1 =>
    let rd1 := (redisHandler.updateChangeCounter h.rdh redPostListKey "").2
    let rd2 := (redisHandler.updateChangeCounter rd1 redPostKey (formatInt id)).2
    (none, ⟨db1, rd2⟩)
  | .error e => (some e, h)

/-- Go `repoHandler.updateReadCounter`. -/
def updateReadCounter (h : repoHandler) (id : Int) : Int × repoHandler :=
  let r := redisHandler.updateReadCounter h.rdh redPostKey (formatInt id)
  (r.1, { h with rdh := r.2 })

end repoHandler

/-- Go `PostRepr.getReadCounter`, on the post `p.data` and the handler `p.rh`. -/
def PostRepr.getReadCounter (data : Post) (rh : repoHandler) : Int × repoHandler :=
  repoHandler.updateReadCounter rh data.ID

/-- Go `PostRepr.READCOUNT`: `int32(p.getReadCounter())`. -/
def PostRepr.READCOUNT (data : Post) (rh : repoHandler) : Int × repoHandler :=
  let r := PostRepr.getReadCounter data rh
  (toInt32 r.1, r.2)

/-! ## Views of the store state and sequential runs -/

/-- The integer a counter key holds; an absent key counts as 0. -/
def Redis.counter (r : Redis) (k : String) : Int :=
  match r.kv k with
  | none => 0
  | some v => (Atoi v).getD 0

/-- The change counter of a scope. -/
def Redis.changeCounter (r : Redis) (entity key : String) : Int :=
  r.counter (redisHandler.changeKey entity key)

/-- The read counter of a post. -/
def Redis.readCounter (r : Redis) (id : Int) : Int :=
  r.counter (redisHandler.readKey redPostKey (formatInt id))

/-- The string stored as the envelope of a scope. -/
def Redis.envelope (r : Redis) (entity key : String) : Option String :=
  r.kv (redisHandler.entityKey entity key)

/-- A key on which `INCR` succeeds: absent, or holding canonical integer text. -/
def Redis.intKey (r : Redis) (k : String) : Prop :=
  r.kv k = none ∨ ∃ n : Int, r.kv k = some (formatInt n)

/-- One call made against the handler. -/
inductive Op where
  | createPost (post : postInput)
  | updatePost (id : Int) (post : postInput)
  | deletePost (id : Int)
  | getPost (id : Int)
  | getPostList
  | READCOUNT (data : Post)

/-- The store states after one call. -/
def step (J : JSON) (h : repoHandler) : Op → repoHandler
  | .createPost post => (repoHandler.createPost h post).2
  | .updatePost id post => (repoHandler.updatePost h id post).2
  | .deletePost id => (repoHandler.deletePost h id).2
  | .getPost id => (repoHandler.getPost J h id).2
  | .getPostList => (repoHandler.getPostList J h).2
  | .READCOUNT data => (PostRepr.READCOUNT data h).2

/-- The store states after a sequence of calls executed one after another. -/
def run (J : JSON) (h : repoHandler) (ops : List Op) : repoHandler :=
  ops.foldl (step J) h

/-- The version the code reads out of a stored envelope string. -/
def JSON.version (J : JSON) (s : String) : Int := (J.unmarshalContainer s).1.Version

/-- The content the code reads out of a stored envelope string. -/
def JSON.content (J : JSON) (s : String) : String := (J.unmarshalContainer s).1.Content

/-- Cache consistency of a handler state: both stores reachable, counters
hold integers, read counters are not negative, no envelope is newer than its
counter, and an envelope as new as its counter holds what the durable store
holds. -/
structure Consistent (J : JSON) (h : repoHandler) : Prop where
  dbUp : h.dbh.up = true
  rdUp : h.rdh.up = true
  changeInt : ∀ e k, h.rdh.intKey (redisHandler.changeKey e k)
  readInt : ∀ e k, h.rdh.intKey (redisHandler.readKey e k)
  readNonneg : ∀ e k, 0 ≤ h.rdh.counter (redisHandler.readKey e k)
  postBound : ∀ id s, h.rdh.envelope redPostKey (formatInt id) = some s →
    J.version s ≤ h.rdh.changeCounter redPostKey (formatInt id)
  postFresh : ∀ id s, h.rdh.envelope redPostKey (formatInt id) = some s →
    h.rdh.changeCounter redPostKey (formatInt id) ≤ J.version s →
    ∃ row, h.dbh.lookup id = some row ∧ (J.unmarshalPost (J.content s)).1 = row.toPost
  listBound : ∀ s, h.rdh.envelope redPostListKey "" = some s →
    J.version s ≤ h.rdh.changeCounter redPostListKey ""
  listFresh : ∀ s, h.rdh.envelope redPostListKey "" = some s →
    h.rdh.changeCounter redPostListKey "" ≤ J.version s →
    (J.unmarshalPosts (J.content s)).1 = h.dbh.rows.map Row.toPost

/-! ## Store states after successful calls -/

/-- The store after a successful `INCR` of key `k`. -/
def Redis.bump (r : Redis) (k : String) : Redis :=
  { r with kv := Function.update r.kv k (some (formatInt (r.counter k + 1))) }

/-- The store after a successful `SET`. -/
def Redis.put (r : Redis) (k v : String) : Redis :=
  { r with kv := Function.update r.kv k (some v) }

namespace repoHandler

/-- The content `redisHandler.get` returns on a hit, `none` on a miss or a
stale envelope. -/
def hitContent (J : JSON) (r : Redis) (e k : String) : Option String :=
  match r.envelope e k with
  | none => none
  | some s => if r.changeCounter e k ≤ J.version s then some (J.content s) else none

/-- The cache store after `getPost` repopulated the envelope of `id` with `post`. -/
def repopulated (J : JSON) (r : Redis) (e k content : String) : Redis :=
  (r.bump (redisHandler.changeKey e k)).put (redisHandler.entityKey e k)
    (J.marshalContainer ⟨r.changeCounter e k + 1, content⟩)

end repoHandler

/-! ## A concrete JSON codec for the cached types

`refJSON` writes the three cached types in the layout `json.Marshal` produces
(`\x7b"Version":5,"Content":"..."\x7d`) and reads that layout back; any other
text is a decode error that leaves the target at its zero value, as
`json.Unmarshal` does for text that is not valid JSON.  Strings are escaped
minimally: a backslash in front of a double quote or a backslash. -/

namespace JSONText

/-- The characters of a JSON string body. -/
def escape : List Char → List Char
  | [] => []
  | c :: cs => if c = '"' ∨ c = '\\' then '\\' :: c :: escape cs else c :: escape cs

/-- Reads a JSON string body up to its closing quote; returns the string and
the text after the quote. -/
def readString : List Char → Option (List Char × List Char)
  | [] => none
  | c :: cs =>
    if c = '"' then some ([], cs)
    else if c = '\\' then
      match cs with
      | [] => none
      | d :: ds => (readString ds).map (fun r => (d :: r.1, r.2))
    else (readString cs).map (fun r => (c :: r.1, r.2))

/-- Drops the expected literal text from the front of the input. -/
def expect : List Char → List Char → Option (List Char)
  | [], inp => some inp
  | _ :: _, [] => none
  | l :: ls, c :: cs => if l = c then expect ls cs else none

/-- Reads decimal digits from the front of the input, continuing from `acc`. -/
def readNat : List Char → Nat → Nat × List Char
  | [], acc => (acc, [])
  | c :: cs, acc =>
    match digitVal c with
    | some d => readNat cs (acc * 10 + d)
    | none => (acc, c :: cs)

/-- Reads a JSON integer from the front of the input. -/
def readInt (inp : List Char) : Option (Int × List Char) :=
  match inp with
  | [] => none
  | c :: cs =>
    if c = '-' then
      match cs with
      | [] => none
      | d :: _ =>
        if (digitVal d).isSome then some (-((readNat cs 0).1 : Int), (readNat cs 0).2) else none
    else if (digitVal c).isSome then some (((readNat (c :: cs) 0).1 : Int), (readNat (c :: cs) 0).2)
    else none

/-- The JSON text of a `RedisContainer`. -/
def containerChars (c : RedisContainer) : List Char :=
  "\x7b\"Version\":".data ++ (formatInt c.Version).data ++ ",\"Content\":\"".data ++
    escape c.Content.data ++ "\"\x7d".data

/-- Reads the JSON text of a `RedisContainer`. -/
def readContainer (inp : List Char) : Option RedisContainer :=
  match expect "\x7b\"Version\":".data inp with
  | none => none
  | some r1 =>
    match readInt r1 with
    | none => none
    | some (v, r2) =>
      match expect ",\"Content\":\"".data r2 with
      | none => none
      | some r3 =>
        match readString r3 with
        | none => none
        | some (c, r4) => if r4 = ['\x7d'] then some ⟨v, String.mk c⟩ else none

/-- The JSON text of a `Post`. -/
def postChars (p : Post) : List Char :=
  "\x7b\"ID\":".data ++ (formatInt p.ID).data ++
    ",\"Title\":\"".data ++ escape p.Title.data ++
    "\",\"Description\":\"".data ++ escape p.Description.data ++
    "\",\"ShortText\":\"".data ++ escape p.ShortText.data ++
    "\",\"FullText\":\"".data ++ escape p.FullText.data ++
    "\",\"URI\":\"".data ++ escape p.URI.data ++
    "\",\"ReadCount\":".data ++ (formatInt p.ReadCount).data ++ "\x7d".data

/-- Reads one string field that follows the literal `lit`. -/
def readField (lit : List Char) (inp : List Char) : Option (List Char × List Char) :=
  match expect lit inp with
  | none => none
  | some r => readString r

/-- Reads the JSON text of a `Post` from the front of the input. -/
def readPost (inp : List Char) : Option (Post × List Char) :=
  match expect "\x7b\"ID\":".data inp with
  | none => none
  | some r0 =>
  match readInt r0 with
  | none => none
  | some (id, r1) =>
  match readField ",\"Title\":\"".data r1 with
  | none => none
  | some (title, r2) =>
  match readField ",\"Description\":\"".data r2 with
  | none => none
  | some (description, r3) =>
  match readField ",\"ShortText\":\"".data r3 with
  | none => none
  | some (shortText, r4) =>
  match readField ",\"FullText\":\"".data r4 with
  | none => none
  | some (fullText, r5) =>
  match readField ",\"URI\":\"".data r5 with
  | none => none
  | some (uri, r6) =>
  match expect ",\"ReadCount\":".data r6 with
  | none => none
  | some r7 =>
  match readInt r7 with
  | none => none
  | some (readCount, r8) =>
  match expect "\x7d".data r8 with
  | none => none
  | some r9 =>
    some (⟨id, String.mk title, String.mk description, String.mk shortText,
      String.mk fullText, String.mk uri, readCount⟩, r9)

/-- The JSON texts of the elements of an array, separated by commas. -/
def postsBody : List Post → List Char
  | [] => []
  | [p] => postChars p
  | p :: q :: ps => postChars p ++ ',' :: postsBody (q :: ps)

/-- Reads the elements of a non-empty JSON array and its closing bracket; the
first argument is recursion fuel. -/
def readPosts : Nat → List Char → Option (List Post)
  | 0, _ => none
  | fuel + 1, inp =>
    match readPost inp with
    | none => none
    | some (p, rest) =>
      match rest with
      | [] => none
      | c :: cs =>
        if c = ']' then (if cs = [] then some [p] else none)
        else if c = ',' then (readPosts fuel cs).map (fun ps => p :: ps)
        else none

/-- Reads the JSON text of an array of posts. -/
def readArray (inp : List Char) : Option (List Post) :=
  match inp with
  | [] => none
  | c :: cs =>
    if c = '[' then (if cs = [']'] then some [] else readPosts cs.length cs) else none

end JSONText

/-- A concrete instance of the `encoding/json` calls. -/
def refJSON : JSON where
  marshalContainer c := String.mk (JSONText.containerChars c)
  unmarshalContainer s :=
    match JSONText.readContainer s.data with
    | some c => (c, true)
    | none => (RedisContainer.zero, false)
  marshalPost p := String.mk (JSONText.postChars p)
  unmarshalPost s :=
    match JSONText.readPost s.data with
    | some (p, []) => (p, true)
    | _ => (Post.zero, false)
  marshalPosts ps := String.mk ('[' :: JSONText.postsBody ps ++ [']'])
  unmarshalPosts s :=
    match JSONText.readArray s.data with
    | some ps => (ps, true)
    | none => ([], false)

/-! ## Concrete stores used in the examples -/

/-- A table holding one post, identity 7. -/
def db7 : DB := ⟨true, [⟨7, "T", "d", "s", "f", "/t"⟩], 7⟩

/-- The post of `db7` as go-pg returns it. -/
def post7 : Post := ⟨7, "T", "d", "s", "f", "/t", 0⟩

/-- Input fields with the title "T2". -/
def input2 : postInput := ⟨0, "T2", "d2", "s2", "f2", "/t2"⟩

/-- The state after 2147483647 accesses to the `READCOUNT` field of post 7,
starting with an empty cache store. -/
def manyReads : repoHandler :=
  run refJSON ⟨db7, Redis.empty⟩ (List.replicate 2147483647 (Op.READCOUNT post7))

/-- Store states on which every call so far succeeded: `db7` behind an empty
cache store. -/
def cold7 : repoHandler := ⟨db7, Redis.empty⟩

/-- An unreachable durable store behind an empty cache store. -/
def dbDown7 : repoHandler := ⟨{ db7 with up := false }, Redis.empty⟩

/-- A cache store holding, for post 7, the change counter 3 and an envelope of
version 5 with content "x". -/
def cached7 : Redis :=
  ⟨true, fun k =>
    if k = redisHandler.entityKey redPostKey (formatInt 7) then
      some (refJSON.marshalContainer ⟨5, "x"⟩)
    else if k = redisHandler.changeKey redPostKey (formatInt 7) then some (formatInt 3)
    else none⟩

/-- The table `db7` behind a cache store whose every call fails. -/
def redisDown7 : repoHandler := ⟨db7, ⟨false, fun _ => none⟩⟩

/-! ## Interleaving model

Every store call of `getPost` and of `updatePost` is one atomic step of the
calling thread; `updatePost` holds the mutex `dmx` from its first step to its
last.  A schedule names, step by step, the thread that moves. -/

/-- Control state of one call: the local variables it holds and the store
call it makes next. -/
inductive Thread where
  /-- The call `getPost id` was made; next: the counter read of `redisHandler.get`. -/
  | getCall (id : Int)
  /-- The counter read gave `version`; next: the envelope read. -/
  | getVersion (id : Int) (version : Int)
  /-- The cache read returned an error; next: the durable-store fetch. -/
  | getMiss (id : Int)
  /-- The durable store returned `post`; next: the counter increment. -/
  | getFetched (id : Int) (post : Post)
  /-- The increment returned `cacheVersion`; next: the envelope write. -/
  | getBumped (id : Int) (post : Post) (cacheVersion : Int)
  /-- The call of `getPost` has returned. -/
  | getDone (res : Outcome Post)
  /-- The call `updatePost id post` was made; next: `dmx.Lock()`. -/
  | updCall (id : Int) (post : postInput)
  /-- The mutex is held; next: the durable-store update. -/
  | updLocked (id : Int) (post : postInput)
  /-- The durable update succeeded; next: the collection counter increment. -/
  | updWritten (id : Int) (post : postInput)
  /-- Next: the single-entity counter increment. -/
  | updBumped (id : Int) (post : postInput)
  /-- Next: the deferred `dmx.Unlock()` and the return. -/
  | updUnlock (id : Int) (post : postInput) (err : Option Err)
  /-- The call of `updatePost` has returned. -/
  | updDone (res : Post × Option Err)
  deriving DecidableEq

/-- The shared stores, the mutex, and the threads. -/
structure System where
  h : repoHandler
  locked : Bool
  threads : List Thread

/-- One atomic step of a thread; `none` when the thread cannot move (it has
returned, or it waits for the mutex). -/
def Thread.step (J : JSON) (h : repoHandler) (locked : Bool) :
    Thread → Option (Thread × repoHandler × Bool)
  | .getCall id =>
    match redisHandler.getChangeCounter h.rdh redPostKey (formatInt id) with
    | .panic => some (.getDone .panic, h, locked)
    | .ok c => some (.getVersion id c, h, locked)
    | .error _ => some (.getVersion id 0, h, locked)
  | .getVersion id version =>
    match h.rdh.Get (redisHandler.entityKey redPostKey (formatInt id)) with
    | .error _ => some (.getMiss id, h, locked)
    | .ok responseData =>
      let container := (J.unmarshalContainer responseData).1
      if version > container.Version then some (.getMiss id, h, locked)
      else some (.getDone (.ok (J.unmarshalPost container.Content).1), h, locked)
  | .getMiss id =>
    match dbHandler.getPost h.dbh id with
    | .error e => some (.getDone (.error e), h, locked)
    | .ok post => some (.getFetched id post, h, locked)
  | .getFetched id post =>
    let r := redisHandler.updateChangeCounter h.rdh redPostKey (formatInt id)
    some (.getBumped id post r.1, { h with rdh := r.2 }, locked)
  | .getBumped id post cacheVersion =>
    match redisHandler.set J h.rdh redPostKey (formatInt id) (J.marshalPost post) cacheVersion with
    | .error _ => some (.getDone .panic, h, locked)
    | .ok rd2 => some (.getDone (.ok post), { h with rdh := rd2 }, locked)
  | .getDone _ => none
  | .updCall id post => if locked then none else some (.updLocked id post, h, true)
  | .updLocked id post =>
    match dbHandler.updatePost h.dbh (repoHandler.updPost id post) with
    | .ok db1 => some (.updWritten id post, { h with dbh := db1 }, locked)
    | .error e => some (.updUnlock id post (some e), h, locked)
  | .updWritten id post =>
    some (.updBumped id post,
      { h with rdh := (redisHandler.updateChangeCounter h.rdh redPostListKey "").2 }, locked)
  | .updBumped id post =>
    some (.updUnlock id post none,
      { h with rdh := (redisHandler.updateChangeCounter h.rdh redPostKey
          (formatInt (repoHandler.updPost id post).ID)).2 }, locked)
  | .updUnlock id post err => some (.updDone (repoHandler.updPost id post, err), h, false)
  | .updDone _ => none

/-- The system after thread `i` made one step (unchanged when it cannot move). -/
def System.step (J : JSON) (s : System) (i : Nat) : System :=
  match s.threads.get? i with
  | none => s
  | some t =>
    match t.step J s.h s.locked with
    | none => s
    | some (t1, h1, l1) => ⟨h1, l1, s.threads.set i t1⟩

/-- The system after a schedule. -/
def System.exec (J : JSON) (s : System) (sched : List Nat) : System :=
  sched.foldl (System.step J) s

/-- A reader of post 7 and a writer of post 7 are called on a cold cache. -/
def raceStart : System :=
  ⟨⟨db7, Redis.empty⟩, false, [.getCall 7, .updCall 7 input2]⟩

/-- The reader misses and fetches the post; the writer then runs from lock to
unlock; the reader then increments the counter and writes the envelope. -/
def raceSchedule : List Nat := [0, 0, 0, 1, 1, 1, 1, 1, 0, 0]

/-- The system after the race. -/
def raceEnd : System := System.exec refJSON raceStart raceSchedule

/-- A cache store holding text that is not an envelope under the envelope key
of post 7, and no change counter. -/
def malformedEnvelope : repoHandler :=
  ⟨db7, ⟨true, fun k =>
    if k = redisHandler.entityKey redPostKey (formatInt 7) then some "garbage" else none⟩⟩

/-- A cache store holding, for post 7, an envelope of version 3 whose content
is not a post, and the change counter 3. -/
def malformedContent : repoHandler :=
  ⟨db7, ⟨true, fun k =>
    if k = redisHandler.entityKey redPostKey (formatInt 7) then
      some (refJSON.marshalContainer ⟨3, "garbage"⟩)
    else if k = redisHandler.changeKey redPostKey (formatInt 7) then some (formatInt 3)
    else none⟩⟩

/-- An unreachable cache store in front of `db7`. -/
def cacheDown (kv : String → Option String) : repoHandler := ⟨db7, ⟨false, kv⟩⟩

/-! ## Lemmas: decimal text -/

theorem digitVal_digitChar (d : Nat) (h : d < 10) : digitVal (digitChar d) = some d := by
  interval_cases d <;> decide

theorem natDigitsAux_append (fuel n : Nat) (acc : List Char) :
    natDigitsAux fuel n acc = natDigitsAux fuel n [] ++ acc := by
  induction fuel generalizing n acc with
  | zero => simp [natDigitsAux]
  | succ f ih =>
    unfold natDigitsAux
    split
    · simp
    · rw [ih, ih (n / 10) [digitChar (n % 10)]]; simp

theorem parseDigits_append (xs ys : List Char) (acc : Nat) :
    parseDigits (xs ++ ys) acc = (parseDigits xs acc).bind (parseDigits ys) := by
  induction xs generalizing acc with
  | nil => simp [parseDigits]
  | cons c cs ih =>
    simp only [List.cons_append, parseDigits]
    cases digitVal c with
    | none => simp
    | some d => simpa using ih _

theorem parseDigits_natDigitsAux (fuel n : Nat) (h : n < fuel) :
    parseDigits (natDigitsAux fuel n []) 0 = some n := by
  induction fuel generalizing n with
  | zero => omega
  | succ f ih =>
    unfold natDigitsAux
    split
    · rename_i h0
      have hn : n % 10 = n := by omega
      have hd := digitVal_digitChar (n % 10) (by omega)
      rw [hn] at hd
      simp [parseDigits, hn, hd]
    · rename_i h0
      rw [natDigitsAux_append, parseDigits_append, ih (n / 10) (by omega)]
      simp [parseDigits, digitVal_digitChar (n % 10) (by omega)]
      omega

theorem parseDigits_natDigits (n : Nat) : parseDigits (natDigits n) 0 = some n :=
  parseDigits_natDigitsAux (n + 1) n (by omega)

theorem natDigits_ne_nil (n : Nat) : natDigits n ≠ [] := by
  intro h
  have := parseDigits_natDigits n
  unfold natDigits at h this
  unfold natDigitsAux at h
  split at h
  · simp at h
  · rw [natDigitsAux_append] at h; simp at h

theorem natDigits_head (n : Nat) : ∃ c cs, natDigits n = c :: cs ∧ c ≠ '-' ∧ c ≠ '+' := by
  have hp := parseDigits_natDigits n
  cases hd : natDigits n with
  | nil => exact absurd hd (natDigits_ne_nil n)
  | cons c cs =>
    refine ⟨c, cs, rfl, ?_, ?_⟩
    · rintro rfl
      rw [hd] at hp; simp [parseDigits, digitVal] at hp
    · rintro rfl
      rw [hd] at hp; simp [parseDigits, digitVal] at hp

theorem Atoi_formatInt (n : Int) : Atoi (formatInt n) = some n := by
  cases n with
  | ofNat n =>
    obtain ⟨c, cs, hd, h1, h2⟩ := natDigits_head n
    have hp := parseDigits_natDigits n
    rw [hd] at hp
    simp [formatInt, Atoi, hd, h1, h2, hp]
  | negSucc n =>
    have hp := parseDigits_natDigits (n + 1)
    simp [formatInt, Atoi, natDigits_ne_nil, hp]
    rw [Int.negSucc_eq]; omega

theorem formatInt_injective : Function.Injective formatInt := by
  intro a b h
  have := Atoi_formatInt a
  rw [h, Atoi_formatInt] at this
  exact (Option.some.inj this).symm

theorem string2ll_formatInt (n : Int) : string2ll (formatInt n) = some n := by
  simp [string2ll, Atoi_formatInt]

theorem string2ll_eq_some {s : String} {n : Int} (h : string2ll s = some n) : s = formatInt n := by
  unfold string2ll at h
  split at h
  · split at h
    · rename_i h1; cases h; exact h1.symm
    · cases h
  · cases h

/-! ## Lemmas: the key families are disjoint -/

namespace redisHandler

theorem entityKey_inj (e k1 k2 : String) : entityKey e k1 = entityKey e k2 ↔ k1 = k2 := by
  simp [entityKey, String.ext_iff]

theorem changeKey_inj (e k1 k2 : String) : changeKey e k1 = changeKey e k2 ↔ k1 = k2 := by
  simp [changeKey, String.ext_iff]

theorem readKey_inj (e k1 k2 : String) : readKey e k1 = readKey e k2 ↔ k1 = k2 := by
  simp [readKey, String.ext_iff]

theorem entityKey_post_ne_change (k1 e k2 : String) :
    entityKey redPostKey k1 ≠ changeKey e k2 := by
  simp [entityKey, changeKey, redKey, redPostKey, redChangeKey, String.ext_iff]

theorem entityKey_list_ne_change (k1 e k2 : String) :
    entityKey redPostListKey k1 ≠ changeKey e k2 := by
  simp [entityKey, changeKey, redKey, redPostListKey, redChangeKey, String.ext_iff]

theorem entityKey_post_ne_list (k1 k2 : String) :
    entityKey redPostKey k1 ≠ entityKey redPostListKey k2 := by
  simp [entityKey, redKey, redPostKey, redPostListKey, String.ext_iff]

theorem changeKey_post_ne_list (k1 k2 : String) :
    changeKey redPostKey k1 ≠ changeKey redPostListKey k2 := by
  simp [changeKey, redKey, redPostKey, redPostListKey, redChangeKey, String.ext_iff]

theorem readKey_ne_change (e1 k1 e2 k2 : String) : readKey e1 k1 ≠ changeKey e2 k2 := by
  simp [readKey, changeKey, redKey, redChangeKey, String.ext_iff]

theorem readKey_ne_entityKey_post (e1 k1 k2 : String) :
    readKey e1 k1 ≠ entityKey redPostKey k2 := by
  simp [readKey, entityKey, redKey, redPostKey, String.ext_iff]

theorem readKey_ne_entityKey_list (e1 k1 k2 : String) :
    readKey e1 k1 ≠ entityKey redPostListKey k2 := by
  simp [readKey, entityKey, redKey, redPostListKey, String.ext_iff]

end redisHandler

/-! ## Lemmas: Redis primitives -/

theorem Redis.counter_of_none {r : Redis} {k : String} (h : r.kv k = none) : r.counter k = 0 := by
  simp [Redis.counter, h]

theorem Redis.counter_of_some {r : Redis} {k : String} {n : Int}
    (h : r.kv k = some (formatInt n)) : r.counter k = n := by
  simp [Redis.counter, h, Atoi_formatInt]

theorem Redis.Incr_eq {r : Redis} {k : String} (hu : r.up = true) (hk : r.intKey k) :
    r.Incr k = .ok (r.counter k + 1, r.bump k) := by
  rcases hk with hk | ⟨n, hk⟩
  · simp [Redis.Incr, hu, hk, Redis.bump, Redis.counter_of_none hk]
  · simp [Redis.Incr, hu, hk, Redis.bump, Redis.counter_of_some hk, string2ll_formatInt]

theorem Redis.bump_up (r : Redis) (k : String) : (r.bump k).up = r.up := rfl

theorem Redis.bump_kv_same (r : Redis) (k : String) :
    (r.bump k).kv k = some (formatInt (r.counter k + 1)) := by
  simp [Redis.bump]

theorem Redis.bump_kv_other (r : Redis) {k k2 : String} (h : k2 ≠ k) :
    (r.bump k).kv k2 = r.kv k2 := by
  simp [Redis.bump, Function.update_apply, h]

theorem Redis.bump_counter_same (r : Redis) (k : String) :
    (r.bump k).counter k = r.counter k + 1 :=
  Redis.counter_of_some (Redis.bump_kv_same r k)

theorem Redis.bump_counter_other (r : Redis) {k k2 : String} (h : k2 ≠ k) :
    (r.bump k).counter k2 = r.counter k2 := by
  simp [Redis.counter, Redis.bump_kv_other r h]

theorem Redis.bump_intKey (r : Redis) (k k2 : String) (h : r.intKey k2) :
    (r.bump k).intKey k2 := by
  by_cases hk : k2 = k
  · subst hk; exact Or.inr ⟨_, Redis.bump_kv_same r k2⟩
  · simpa [Redis.intKey, Redis.bump_kv_other r hk] using h

theorem Redis.Set_eq {r : Redis} (k v : String) (hu : r.up = true) :
    r.Set k v = .ok (r.put k v) := by
  simp [Redis.Set, hu, Redis.put]

theorem Redis.put_kv_same (r : Redis) (k v : String) : (r.put k v).kv k = some v := by
  simp [Redis.put]

theorem Redis.put_kv_other (r : Redis) {k k2 : String} (v : String) (h : k2 ≠ k) :
    (r.put k v).kv k2 = r.kv k2 := by
  simp [Redis.put, Function.update_apply, h]

theorem Redis.put_counter_other (r : Redis) {k k2 : String} (v : String) (h : k2 ≠ k) :
    (r.put k v).counter k2 = r.counter k2 := by
  simp [Redis.counter, Redis.put_kv_other r v h]

namespace redisHandler

theorem updateChangeCounter_eq {r : Redis} (e k : String) (hu : r.up = true)
    (hk : r.intKey (changeKey e k)) :
    updateChangeCounter r e k = (r.changeCounter e k + 1, r.bump (changeKey e k)) := by
  simp [updateChangeCounter, Redis.Incr_eq hu hk, Redis.changeCounter]

theorem updateReadCounter_eq {r : Redis} (e k : String) (hu : r.up = true)
    (hk : r.intKey (readKey e k)) :
    updateReadCounter r e k = (r.counter (readKey e k) + 1, r.bump (readKey e k)) := by
  simp [updateReadCounter, Redis.Incr_eq hu hk]

/-- On a reachable store whose counter key is absent or holds an integer,
`getChangeCounter` never panics and `get` compares against `changeCounter`. -/
theorem get_eq (J : JSON) {r : Redis} (e k : String) (hu : r.up = true)
    (hk : r.intKey (changeKey e k)) :
    get J r e k =
      match r.envelope e k with
      | none => .error Err.redisNil
      | some s =>
        if r.changeCounter e k > J.version s then .error Err.ErrRedisCacheVersion
        else .ok (J.content s) := by
  rcases hk with hk | ⟨n, hk⟩
  · simp only [get, getChangeCounter, Redis.Get, hu, hk, Redis.envelope, Redis.changeCounter,
      Redis.counter_of_none hk]
    cases hv : r.kv (entityKey e k) <;> simp [JSON.version, JSON.content]
  · simp only [get, getChangeCounter, Redis.Get, hu, hk, Redis.envelope, Redis.changeCounter,
      Redis.counter_of_some hk]
    cases hv : r.kv (entityKey e k) <;> simp [JSON.version, JSON.content, Atoi_formatInt]

end redisHandler

/-! ## Lemmas: the durable store -/

theorem DB.lookup_id {db : DB} {id : Int} {r : Row} (h : db.lookup id = some r) : r.id = id := by
  have := List.find?_some h
  simpa using this

theorem Row.toPost_toRow (r : Row) : r.toPost.toRow = r := rfl

theorem Row.toPost_ID (r : Row) : r.toPost.ID = r.id := rfl

theorem List.find?_map_replace (rows : List Row) (a id : Int) (new : Row) (hne : id ≠ a)
    (hnew : new.id = a) :
    (rows.map (fun r => if r.id = a then new else r)).find? (fun r => r.id = id) =
      rows.find? (fun r => r.id = id) := by
  have ha : ¬ a = id := fun h => hne h.symm
  induction rows with
  | nil => rfl
  | cons r rs ih =>
    simp only [List.map_cons, List.find?_cons]
    by_cases hr : r.id = a
    · simp only [hr, if_true, hnew, ha, decide_False]
      exact ih
    · simp only [hr, if_false]
      by_cases h3 : r.id = id
      · simp [h3]
      · simp only [h3, decide_False]
        exact ih

theorem List.find?_map_replace_same (rows : List Row) (a : Int) (new : Row) (hnew : new.id = a)
    (hex : (rows.find? (fun r => r.id = a)).isSome) :
    (rows.map (fun r => if r.id = a then new else r)).find? (fun r => r.id = a) = some new := by
  induction rows with
  | nil => simp at hex
  | cons r rs ih =>
    simp only [List.map_cons, List.find?_cons]
    by_cases hr : r.id = a
    · simp [hr, hnew]
    · simp only [hr, if_false, decide_False]
      simp only [List.find?_cons, hr, decide_False] at hex
      exact ih hex

theorem List.find?_filter_ne (rows : List Row) (a id : Int) (hne : id ≠ a) :
    (rows.filter (fun r => ¬ r.id = a)).find? (fun r => r.id = id) =
      rows.find? (fun r => r.id = id) := by
  have ha : ¬ a = id := fun h => hne h.symm
  induction rows with
  | nil => rfl
  | cons r rs ih =>
    by_cases hr : r.id = a
    · rw [List.filter_cons_of_neg (by simp [hr]), List.find?_cons, ih]
      simp [hr, ha]
    · rw [List.filter_cons_of_pos (by simp [hr]), List.find?_cons, List.find?_cons, ih]

theorem List.find?_filter_same (rows : List Row) (a : Int) :
    (rows.filter (fun r => ¬ r.id = a)).find? (fun r => r.id = a) = none := by
  simp [List.find?_eq_none]

namespace dbHandler

theorem getPost_eq {db : DB} (id : Int) (hu : db.up = true) :
    getPost db id = match db.lookup id with
      | some r => .ok r.toPost
      | none => .error Err.pgNoRows := by
  simp [getPost, hu]

theorem createPost_ok {db db1 : DB} {post p : Post} (h : createPost db post = (.ok p, db1)) :
    db.up = true ∧ db.lookup (db.seq + 1) = none ∧ p = { post with ID := db.seq + 1 } ∧
      db1 = { db with rows := db.rows ++ [p.toRow], seq := db.seq + 1 } := by
  unfold createPost at h
  split at h
  · rename_i hu
    simp only at h
    split at h
    · simp at h
    · rename_i hl
      simp only [Prod.mk.injEq, Except.ok.injEq] at h
      obtain ⟨h1, h2⟩ := h
      subst h1
      exact ⟨hu, hl, rfl, h2.symm⟩
  · simp at h

theorem createPost_error {db db1 : DB} {post : Post} {e : Err}
    (h : createPost db post = (.error e, db1)) : db1.up = db.up ∧ db1.rows = db.rows := by
  unfold createPost at h
  split at h
  · simp only at h
    split at h
    · simp only [Prod.mk.injEq] at h
      rw [← h.2]
      exact ⟨rfl, rfl⟩
    · simp at h
  · simp only [Prod.mk.injEq] at h
    rw [← h.2]
    exact ⟨rfl, rfl⟩

theorem updatePost_ok {db db1 : DB} {post : Post} (h : updatePost db post = .ok db1) :
    db.up = true ∧ (db.lookup post.ID).isSome ∧
      db1 = { db with rows := db.rows.map (fun r => if r.id = post.ID then post.toRow else r) } := by
  unfold updatePost at h
  split at h
  · rename_i hu
    split at h
    · rename_i r hl
      simp only [Except.ok.injEq] at h
      exact ⟨hu, by simp [hl], h.symm⟩
    · cases h
  · cases h

theorem deletePost_ok {db db1 : DB} {id : Int} (h : deletePost db id = .ok db1) :
    db.up = true ∧ (db.lookup id).isSome ∧
      db1 = { db with rows := db.rows.filter (fun r => ¬ r.id = id) } := by
  unfold deletePost at h
  split at h
  · rename_i hu
    split at h
    · rename_i r hl
      simp only [Except.ok.injEq] at h
      exact ⟨hu, by simp [hl], h.symm⟩
    · cases h
  · cases h

end dbHandler

/-! ## Lemmas: what each handler call does on a consistent store -/

namespace redisHandler

theorem formatInt_eq_iff (a b : Int) : formatInt a = formatInt b ↔ a = b :=
  formatInt_injective.eq_iff

theorem change_ne_entityKey_post (k1 e k2 : String) :
    changeKey e k2 ≠ entityKey redPostKey k1 := fun h => entityKey_post_ne_change k1 e k2 h.symm

theorem change_ne_entityKey_list (k1 e k2 : String) :
    changeKey e k2 ≠ entityKey redPostListKey k1 := fun h => entityKey_list_ne_change k1 e k2 h.symm

theorem entityKey_list_ne_post (k1 k2 : String) :
    entityKey redPostListKey k2 ≠ entityKey redPostKey k1 := fun h => entityKey_post_ne_list k1 k2 h.symm

theorem changeKey_list_ne_post (k1 k2 : String) :
    changeKey redPostListKey k2 ≠ changeKey redPostKey k1 := fun h => changeKey_post_ne_list k1 k2 h.symm

theorem change_ne_readKey (e1 k1 e2 k2 : String) : changeKey e2 k2 ≠ readKey e1 k1 :=
  fun h => readKey_ne_change e1 k1 e2 k2 h.symm

theorem entityKey_post_ne_readKey (e1 k1 k2 : String) :
    entityKey redPostKey k2 ≠ readKey e1 k1 := fun h => readKey_ne_entityKey_post e1 k1 k2 h.symm

theorem entityKey_list_ne_readKey (e1 k1 k2 : String) :
    entityKey redPostListKey k2 ≠ readKey e1 k1 := fun h => readKey_ne_entityKey_list e1 k1 k2 h.symm

end redisHandler

theorem Redis.kv_bump (r : Redis) (k x : String) :
    (r.bump k).kv x = if x = k then some (formatInt (r.counter k + 1)) else r.kv x := by
  simp [Redis.bump, Function.update_apply]

theorem Redis.kv_put (r : Redis) (k v x : String) :
    (r.put k v).kv x = if x = k then some v else r.kv x := by
  simp [Redis.put, Function.update_apply]

theorem Redis.put_up (r : Redis) (k v : String) : (r.put k v).up = r.up := rfl

theorem Redis.put_intKey (r : Redis) {k k2 : String} (v : String) (hne : k2 ≠ k)
    (h : r.intKey k2) : (r.put k v).intKey k2 := by
  simpa [Redis.intKey, Redis.put_kv_other r v hne] using h

namespace repoHandler

theorem get_of_hit (J : JSON) {r : Redis} {e k c : String} (hu : r.up = true)
    (hk : r.intKey (redisHandler.changeKey e k)) (hh : hitContent J r e k = some c) :
    redisHandler.get J r e k = .ok c := by
  rw [redisHandler.get_eq J e k hu hk]
  unfold hitContent at hh
  cases hv : r.envelope e k with
  | none => simp [hv] at hh
  | some s =>
    simp only [hv] at hh ⊢
    split at hh
    · rename_i hle
      simp only [Option.some.injEq] at hh
      simp [not_lt.mpr hle, hh]
    · cases hh

theorem get_of_miss (J : JSON) {r : Redis} {e k : String} (hu : r.up = true)
    (hk : r.intKey (redisHandler.changeKey e k)) (hh : hitContent J r e k = none) :
    ∃ err, redisHandler.get J r e k = .error err := by
  rw [redisHandler.get_eq J e k hu hk]
  unfold hitContent at hh
  cases hv : r.envelope e k with
  | none => exact ⟨_, rfl⟩
  | some s =>
    simp only [hv] at hh ⊢
    split at hh
    · cases hh
    · rename_i hle
      exact ⟨Err.ErrRedisCacheVersion, by simp [not_le.mp hle]⟩

theorem getPost_hit (J : JSON) {h : repoHandler} {id : Int} {c : String}
    (hu : h.rdh.up = true)
    (hk : h.rdh.intKey (redisHandler.changeKey redPostKey (formatInt id)))
    (hh : hitContent J h.rdh redPostKey (formatInt id) = some c) :
    getPost J h id = (.ok (J.unmarshalPost c).1, h) := by
  simp [getPost, get_of_hit J hu hk hh]

theorem getPost_miss (J : JSON) {h : repoHandler} {id : Int}
    (hu : h.rdh.up = true) (hd : h.dbh.up = true)
    (hk : h.rdh.intKey (redisHandler.changeKey redPostKey (formatInt id)))
    (hh : hitContent J h.rdh redPostKey (formatInt id) = none) :
    getPost J h id =
      match h.dbh.lookup id with
      | none => (.error Err.pgNoRows, h)
      | some row => (.ok row.toPost,
          { h with rdh := repopulated J h.rdh redPostKey (formatInt id) (J.marshalPost row.toPost) }) := by
  obtain ⟨err, he⟩ := get_of_miss J hu hk hh
  simp only [getPost, he, dbHandler.getPost_eq id hd]
  cases hl : h.dbh.lookup id with
  | none => rfl
  | some row =>
    simp only [redisHandler.updateChangeCounter_eq _ _ hu hk, redisHandler.set]
    rw [Redis.Set_eq _ _ (by simpa [Redis.bump_up] using hu)]
    rfl

theorem getPostList_hit (J : JSON) {h : repoHandler} {c : String}
    (hu : h.rdh.up = true)
    (hk : h.rdh.intKey (redisHandler.changeKey redPostListKey ""))
    (hh : hitContent J h.rdh redPostListKey "" = some c) :
    getPostList J h = (.ok (J.unmarshalPosts c).1, h) := by
  simp [getPostList, get_of_hit J hu hk hh]

theorem getPostList_miss (J : JSON) {h : repoHandler}
    (hu : h.rdh.up = true) (hd : h.dbh.up = true)
    (hk : h.rdh.intKey (redisHandler.changeKey redPostListKey ""))
    (hh : hitContent J h.rdh redPostListKey "" = none) :
    getPostList J h =
      (.ok (h.dbh.rows.map Row.toPost),
        { h with rdh := (repopulated J h.rdh redPostListKey ""
            (J.marshalPosts (h.dbh.rows.map Row.toPost))) }) := by
  obtain ⟨err, he⟩ := get_of_miss J hu hk hh
  simp only [getPostList, he, dbHandler.getPostList, hd, if_true]
  simp only [redisHandler.updateChangeCounter_eq _ _ hu hk, redisHandler.set]
  rw [Redis.Set_eq _ _ (by simpa [Redis.bump_up] using hu)]
  rfl

end repoHandler

/-! ## The consistency invariant is kept by every call -/

namespace repoHandler

theorem kv_repopulated (J : JSON) (r : Redis) (e k c x : String) :
    (repopulated J r e k c).kv x =
      if x = redisHandler.entityKey e k then
        some (J.marshalContainer ⟨r.changeCounter e k + 1, c⟩)
      else if x = redisHandler.changeKey e k then some (formatInt (r.changeCounter e k + 1))
      else r.kv x := by
  simp [repopulated, Redis.kv_put, Redis.kv_bump, Redis.changeCounter]

theorem repopulated_up (J : JSON) (r : Redis) (e k c : String) :
    (repopulated J r e k c).up = r.up := rfl

theorem repopulated_intKey (J : JSON) (r : Redis) (e k c x : String)
    (hne : x ≠ redisHandler.entityKey e k) (h : r.intKey x) :
    (repopulated J r e k c).intKey x := by
  unfold Redis.intKey
  rw [kv_repopulated]
  simp only [hne, if_false]
  by_cases hx : x = redisHandler.changeKey e k
  · simp [hx]
  · simpa [hx] using h

end repoHandler

section
open redisHandler

theorem Consistent.repopulate_post {J : JSON} {h : repoHandler} (hJ : J.Lawful)
    (hc : Consistent J h) (id : Int) (row : Row) (hl : h.dbh.lookup id = some row) :
    Consistent J { h with rdh := (repoHandler.repopulated J h.rdh redPostKey (formatInt id)
      (J.marshalPost row.toPost)) } := by
  refine ⟨hc.dbUp, hc.rdUp, ?_, ?_, ?_, ?_, ?_, ?_, ?_⟩
  · intro e k
    exact repoHandler.repopulated_intKey _ _ _ _ _ _ (change_ne_entityKey_post _ _ _) (hc.changeInt e k)
  · intro e k
    exact repoHandler.repopulated_intKey _ _ _ _ _ _ (readKey_ne_entityKey_post _ _ _) (hc.readInt e k)
  · intro e k
    simp only [Redis.counter, repoHandler.kv_repopulated, readKey_ne_entityKey_post,
      readKey_ne_change, if_false]
    exact hc.readNonneg e k
  · intro id2 s
    simp only [Redis.envelope, Redis.changeCounter, Redis.counter, repoHandler.kv_repopulated,
      entityKey_inj, changeKey_inj, formatInt_eq_iff, change_ne_entityKey_post, if_false]
    by_cases hid : id2 = id
    · subst hid
      simp only [if_true, Option.some.injEq]
      rintro rfl
      simp [JSON.version, hJ.container, Atoi_formatInt]
    · simp only [hid, if_false]
      exact hc.postBound id2 s
  · intro id2 s
    simp only [Redis.envelope, Redis.changeCounter, Redis.counter, repoHandler.kv_repopulated,
      entityKey_inj, changeKey_inj, formatInt_eq_iff, change_ne_entityKey_post, if_false]
    by_cases hid : id2 = id
    · subst hid
      simp only [if_true, Option.some.injEq]
      rintro rfl _
      exact ⟨row, hl, by simp [JSON.content, hJ.container, hJ.post]⟩
    · simp only [hid, if_false]
      exact hc.postFresh id2 s
  · intro s
    simp only [Redis.envelope, Redis.changeCounter, Redis.counter, repoHandler.kv_repopulated,
      entityKey_list_ne_post, changeKey_list_ne_post, change_ne_entityKey_post, if_false]
    exact hc.listBound s
  · intro s
    simp only [Redis.envelope, Redis.changeCounter, Redis.counter, repoHandler.kv_repopulated,
      entityKey_list_ne_post, changeKey_list_ne_post, change_ne_entityKey_post, if_false]
    exact hc.listFresh s


theorem Consistent.repopulate_list {J : JSON} {h : repoHandler} (hJ : J.Lawful)
    (hc : Consistent J h) :
    Consistent J { h with rdh := (repoHandler.repopulated J h.rdh redPostListKey ""
      (J.marshalPosts (h.dbh.rows.map Row.toPost))) } := by
  refine ⟨hc.dbUp, hc.rdUp, ?_, ?_, ?_, ?_, ?_, ?_, ?_⟩
  · intro e k
    exact repoHandler.repopulated_intKey _ _ _ _ _ _ (change_ne_entityKey_list _ _ _) (hc.changeInt e k)
  · intro e k
    exact repoHandler.repopulated_intKey _ _ _ _ _ _ (readKey_ne_entityKey_list _ _ _) (hc.readInt e k)
  · intro e k
    simp only [Redis.counter, repoHandler.kv_repopulated, readKey_ne_entityKey_list,
      readKey_ne_change, if_false]
    exact hc.readNonneg e k
  · intro id2 s
    simp only [Redis.envelope, Redis.changeCounter, Redis.counter, repoHandler.kv_repopulated,
      entityKey_post_ne_list, changeKey_post_ne_list, change_ne_entityKey_list, if_false]
    exact hc.postBound id2 s
  · intro id2 s
    simp only [Redis.envelope, Redis.changeCounter, Redis.counter, repoHandler.kv_repopulated,
      entityKey_post_ne_list, changeKey_post_ne_list, change_ne_entityKey_list, if_false]
    exact hc.postFresh id2 s
  · intro s
    simp only [Redis.envelope, Redis.changeCounter, Redis.counter, repoHandler.kv_repopulated,
      change_ne_entityKey_list, if_true, if_false, Option.some.injEq]
    rintro rfl
    simp [JSON.version, hJ.container, Atoi_formatInt]
  · intro s
    simp only [Redis.envelope, Redis.changeCounter, Redis.counter, repoHandler.kv_repopulated,
      change_ne_entityKey_list, if_true, if_false, Option.some.injEq]
    rintro rfl _
    simp [JSON.content, hJ.container, hJ.posts]


theorem Consistent.invalidate_list {J : JSON} {h : repoHandler} (hc : Consistent J h) (db1 : DB)
    (hup : db1.up = true)
    (hframe : ∀ id row, h.dbh.lookup id = some row → db1.lookup id = some row) :
    Consistent J ⟨db1, h.rdh.bump (changeKey redPostListKey "")⟩ := by
  refine ⟨hup, hc.rdUp, ?_, ?_, ?_, ?_, ?_, ?_, ?_⟩
  · intro e k
    exact Redis.bump_intKey _ _ _ (hc.changeInt e k)
  · intro e k
    exact Redis.bump_intKey _ _ _ (hc.readInt e k)
  · intro e k
    rw [Redis.bump_counter_other _ (readKey_ne_change _ _ _ _)]
    exact hc.readNonneg e k
  · intro id2 s
    simp only [Redis.envelope, Redis.changeCounter, Redis.counter, Redis.kv_bump,
      entityKey_post_ne_change, changeKey_post_ne_list, if_false]
    exact hc.postBound id2 s
  · intro id2 s
    simp only [Redis.envelope, Redis.changeCounter, Redis.counter, Redis.kv_bump,
      entityKey_post_ne_change, changeKey_post_ne_list, if_false]
    intro h1 h2
    obtain ⟨row, hr, hp⟩ := hc.postFresh id2 s h1 h2
    exact ⟨row, hframe _ _ hr, hp⟩
  · intro s hs
    have hs2 : h.rdh.envelope redPostListKey "" = some s := by
      simpa [Redis.envelope, Redis.kv_bump, entityKey_list_ne_change] using hs
    have := hc.listBound s hs2
    simp only [Redis.changeCounter] at this ⊢
    rw [Redis.bump_counter_same]
    omega
  · intro s hs hle
    have hs2 : h.rdh.envelope redPostListKey "" = some s := by
      simpa [Redis.envelope, Redis.kv_bump, entityKey_list_ne_change] using hs
    have := hc.listBound s hs2
    simp only [Redis.changeCounter] at this hle
    rw [Redis.bump_counter_same] at hle
    omega


theorem Consistent.invalidate_post {J : JSON} {h : repoHandler} (hc : Consistent J h) (a : Int)
    (db1 : DB) (hup : db1.up = true)
    (hframe : ∀ id, id ≠ a → db1.lookup id = h.dbh.lookup id) :
    Consistent J ⟨db1, (h.rdh.bump (changeKey redPostListKey "")).bump
      (changeKey redPostKey (formatInt a))⟩ := by
  have hpl : ∀ k, changeKey redPostKey k ≠ changeKey redPostListKey "" :=
    fun k => changeKey_post_ne_list k ""
  refine ⟨hup, hc.rdUp, ?_, ?_, ?_, ?_, ?_, ?_, ?_⟩
  · intro e k
    exact Redis.bump_intKey _ _ _ (Redis.bump_intKey _ _ _ (hc.changeInt e k))
  · intro e k
    exact Redis.bump_intKey _ _ _ (Redis.bump_intKey _ _ _ (hc.readInt e k))
  · intro e k
    rw [Redis.bump_counter_other _ (readKey_ne_change _ _ _ _),
      Redis.bump_counter_other _ (readKey_ne_change _ _ _ _)]
    exact hc.readNonneg e k
  · intro id2 s hs
    have hs2 : h.rdh.envelope redPostKey (formatInt id2) = some s := by
      simpa [Redis.envelope, Redis.kv_bump, entityKey_post_ne_change] using hs
    have := hc.postBound id2 s hs2
    simp only [Redis.changeCounter] at this ⊢
    by_cases hid : id2 = a
    · subst hid
      rw [Redis.bump_counter_same, Redis.bump_counter_other _ (hpl _)]; omega
    · rw [Redis.bump_counter_other _ (by simpa [changeKey_inj, formatInt_eq_iff] using hid),
        Redis.bump_counter_other _ (hpl _)]
      exact this
  · intro id2 s hs hle
    have hs2 : h.rdh.envelope redPostKey (formatInt id2) = some s := by
      simpa [Redis.envelope, Redis.kv_bump, entityKey_post_ne_change] using hs
    have hb := hc.postBound id2 s hs2
    simp only [Redis.changeCounter] at hb hle
    by_cases hid : id2 = a
    · subst hid
      rw [Redis.bump_counter_same, Redis.bump_counter_other _ (hpl _)] at hle; omega
    · rw [Redis.bump_counter_other _ (by simpa [changeKey_inj, formatInt_eq_iff] using hid),
        Redis.bump_counter_other _ (hpl _)] at hle
      obtain ⟨row, hr, hp⟩ := hc.postFresh id2 s hs2 hle
      exact ⟨row, by rw [hframe id2 hid]; exact hr, hp⟩
  · intro s hs
    have hs2 : h.rdh.envelope redPostListKey "" = some s := by
      simpa [Redis.envelope, Redis.kv_bump, entityKey_list_ne_change] using hs
    have := hc.listBound s hs2
    simp only [Redis.changeCounter] at this ⊢
    rw [Redis.bump_counter_other _ (hpl _).symm, Redis.bump_counter_same]
    omega
  · intro s hs hle
    have hs2 : h.rdh.envelope redPostListKey "" = some s := by
      simpa [Redis.envelope, Redis.kv_bump, entityKey_list_ne_change] using hs
    have := hc.listBound s hs2
    simp only [Redis.changeCounter] at this hle
    rw [Redis.bump_counter_other _ (hpl _).symm, Redis.bump_counter_same] at hle
    omega


theorem Consistent.after_readCount {J : JSON} {h : repoHandler} (hc : Consistent J h) (e k : String) :
    Consistent J { h with rdh := h.rdh.bump (readKey e k) } := by
  refine ⟨hc.dbUp, hc.rdUp, ?_, ?_, ?_, ?_, ?_, ?_, ?_⟩
  · intro e2 k2
    exact Redis.bump_intKey _ _ _ (hc.changeInt e2 k2)
  · intro e2 k2
    exact Redis.bump_intKey _ _ _ (hc.readInt e2 k2)
  · intro e2 k2
    have := hc.readNonneg e2 k2
    by_cases hk : readKey e2 k2 = readKey e k
    · rw [hk, Redis.bump_counter_same]
      rw [hk] at this
      omega
    · rw [Redis.bump_counter_other _ hk]
      exact this
  · intro id2 s
    simp only [Redis.envelope, Redis.changeCounter, Redis.counter, Redis.kv_bump,
      entityKey_post_ne_readKey, change_ne_readKey, if_false]
    exact hc.postBound id2 s
  · intro id2 s
    simp only [Redis.envelope, Redis.changeCounter, Redis.counter, Redis.kv_bump,
      entityKey_post_ne_readKey, change_ne_readKey, if_false]
    exact hc.postFresh id2 s
  · intro s
    simp only [Redis.envelope, Redis.changeCounter, Redis.counter, Redis.kv_bump,
      entityKey_list_ne_readKey, change_ne_readKey, if_false]
    exact hc.listBound s
  · intro s
    simp only [Redis.envelope, Redis.changeCounter, Redis.counter, Redis.kv_bump,
      entityKey_list_ne_readKey, change_ne_readKey, if_false]
    exact hc.listFresh s

end

/-! ### Every call keeps the invariant -/

namespace repoHandler

theorem createPost_eq {h : repoHandler} (post : postInput) (hu : h.rdh.up = true)
    (hk : h.rdh.intKey (redisHandler.changeKey redPostListKey "")) :
    createPost h post =
      match dbHandler.createPost h.dbh (newPost post) with
      | (.ok p, db1) =>
        ((p.ID, none), ⟨db1, h.rdh.bump (redisHandler.changeKey redPostListKey "")⟩)
      | (.error e, db1) => ((0, some e), { h with dbh := db1 }) := by
  unfold createPost
  rcases hd : dbHandler.createPost h.dbh (newPost post) with ⟨res, db1⟩
  cases res with
  | error e => rfl
  | ok p => simp [redisHandler.updateChangeCounter_eq _ _ hu hk]

theorem updatePost_eq {h : repoHandler} (id : Int) (post : postInput) (hu : h.rdh.up = true)
    (hk : h.rdh.intKey (redisHandler.changeKey redPostListKey ""))
    (hk2 : h.rdh.intKey (redisHandler.changeKey redPostKey (formatInt id))) :
    updatePost h id post =
      match dbHandler.updatePost h.dbh (updPost id post) with
      | .ok db1 =>
        ((updPost id post, none), ⟨db1, (h.rdh.bump (redisHandler.changeKey redPostListKey "")).bump
          (redisHandler.changeKey redPostKey (formatInt id))⟩)
      | .error e => ((updPost id post, some e), h) := by
  unfold updatePost
  cases dbHandler.updatePost h.dbh (updPost id post) with
  | error e => rfl
  | ok db1 =>
    have h2 := Redis.bump_intKey h.rdh (redisHandler.changeKey redPostListKey "") _ hk2
    simp [redisHandler.updateChangeCounter_eq _ _ hu hk,
      redisHandler.updateChangeCounter_eq (r := h.rdh.bump _) _ _ hu h2, updPost]

theorem deletePost_eq {h : repoHandler} (id : Int) (hu : h.rdh.up = true)
    (hk : h.rdh.intKey (redisHandler.changeKey redPostListKey ""))
    (hk2 : h.rdh.intKey (redisHandler.changeKey redPostKey (formatInt id))) :
    deletePost h id =
      match dbHandler.deletePost h.dbh id with
      | .ok db1 =>
        (none, ⟨db1, (h.rdh.bump (redisHandler.changeKey redPostListKey "")).bump
          (redisHandler.changeKey redPostKey (formatInt id))⟩)
      | .error e => (some e, h) := by
  unfold deletePost
  cases dbHandler.deletePost h.dbh id with
  | error e => rfl
  | ok db1 =>
    have h2 := Redis.bump_intKey h.rdh (redisHandler.changeKey redPostListKey "") _ hk2
    simp [redisHandler.updateChangeCounter_eq _ _ hu hk,
      redisHandler.updateChangeCounter_eq (r := h.rdh.bump _) _ _ hu h2]

theorem updateReadCounter_spec {h : repoHandler} (id : Int) (hu : h.rdh.up = true)
    (hk : h.rdh.intKey (redisHandler.readKey redPostKey (formatInt id))) :
    updateReadCounter h id =
      (h.rdh.readCounter id + 1,
        { h with rdh := h.rdh.bump (redisHandler.readKey redPostKey (formatInt id)) }) := by
  simp [updateReadCounter, redisHandler.updateReadCounter_eq _ _ hu hk, Redis.readCounter]

end repoHandler

theorem DB.lookup_append_of_some {db : DB} {id : Int} {row x : Row}
    (h : db.lookup id = some row) :
    ({ db with rows := db.rows ++ [x], seq := db.seq + 1 } : DB).lookup id = some row := by
  simp only [DB.lookup] at h ⊢
  rw [List.find?_append, h]; rfl

theorem Consistent.of_same_rows {J : JSON} {h : repoHandler} (hc : Consistent J h) (db1 : DB)
    (hup : db1.up = h.dbh.up) (hrows : db1.rows = h.dbh.rows) :
    Consistent J { h with dbh := db1 } := by
  refine ⟨hup.trans hc.dbUp, hc.rdUp, hc.changeInt, hc.readInt, hc.readNonneg, hc.postBound, ?_,
    hc.listBound, ?_⟩
  · intro id s h1 h2
    obtain ⟨row, hr, hp⟩ := hc.postFresh id s h1 h2
    exact ⟨row, by simpa [DB.lookup, hrows] using hr, hp⟩
  · intro s h1 h2
    simpa [hrows] using hc.listFresh s h1 h2

theorem Consistent.after_createPost {J : JSON} {h : repoHandler} (hc : Consistent J h)
    (post : postInput) : Consistent J (repoHandler.createPost h post).2 := by
  rw [repoHandler.createPost_eq post hc.rdUp (hc.changeInt _ _)]
  rcases hd : dbHandler.createPost h.dbh (repoHandler.newPost post) with ⟨res, db1⟩
  cases res with
  | error e =>
    obtain ⟨hup, hrows⟩ := dbHandler.createPost_error hd
    exact hc.of_same_rows db1 hup hrows
  | ok p =>
    obtain ⟨hu, -, -, hdb⟩ := dbHandler.createPost_ok hd
    subst hdb
    exact hc.invalidate_list _ hu (fun id row hr => DB.lookup_append_of_some hr)

theorem Consistent.after_updatePost {J : JSON} {h : repoHandler} (hc : Consistent J h)
    (id : Int) (post : postInput) : Consistent J (repoHandler.updatePost h id post).2 := by
  rw [repoHandler.updatePost_eq id post hc.rdUp (hc.changeInt _ _) (hc.changeInt _ _)]
  cases hd : dbHandler.updatePost h.dbh (repoHandler.updPost id post) with
  | error e => exact hc
  | ok db1 =>
    obtain ⟨hu, -, hdb⟩ := dbHandler.updatePost_ok hd
    subst hdb
    refine hc.invalidate_post id _ hu (fun id2 hne => ?_)
    exact List.find?_map_replace _ _ _ _ hne rfl

theorem Consistent.after_deletePost {J : JSON} {h : repoHandler} (hc : Consistent J h)
    (id : Int) : Consistent J (repoHandler.deletePost h id).2 := by
  rw [repoHandler.deletePost_eq id hc.rdUp (hc.changeInt _ _) (hc.changeInt _ _)]
  cases hd : dbHandler.deletePost h.dbh id with
  | error e => exact hc
  | ok db1 =>
    obtain ⟨hu, -, hdb⟩ := dbHandler.deletePost_ok hd
    subst hdb
    refine hc.invalidate_post id _ hu (fun id2 hne => ?_)
    exact List.find?_filter_ne _ _ _ hne

theorem Consistent.after_getPost {J : JSON} {h : repoHandler} (hJ : J.Lawful) (hc : Consistent J h)
    (id : Int) : Consistent J (repoHandler.getPost J h id).2 := by
  cases hh : repoHandler.hitContent J h.rdh redPostKey (formatInt id) with
  | some c => rw [repoHandler.getPost_hit J hc.rdUp (hc.changeInt _ _) hh]; exact hc
  | none =>
    rw [repoHandler.getPost_miss J hc.rdUp hc.dbUp (hc.changeInt _ _) hh]
    cases hl : h.dbh.lookup id with
    | none => exact hc
    | some row => exact hc.repopulate_post hJ id row hl

theorem Consistent.after_getPostList {J : JSON} {h : repoHandler} (hJ : J.Lawful)
    (hc : Consistent J h) : Consistent J (repoHandler.getPostList J h).2 := by
  cases hh : repoHandler.hitContent J h.rdh redPostListKey "" with
  | some c => rw [repoHandler.getPostList_hit J hc.rdUp (hc.changeInt _ _) hh]; exact hc
  | none =>
    rw [repoHandler.getPostList_miss J hc.rdUp hc.dbUp (hc.changeInt _ _) hh]
    exact hc.repopulate_list hJ

theorem Consistent.after_READCOUNT {J : JSON} {h : repoHandler} (hc : Consistent J h)
    (data : Post) : Consistent J (PostRepr.READCOUNT data h).2 := by
  simp only [PostRepr.READCOUNT, PostRepr.getReadCounter,
    repoHandler.updateReadCounter_spec data.ID hc.rdUp (hc.readInt _ _)]
  exact hc.after_readCount _ _

theorem Consistent.after_step {J : JSON} {h : repoHandler} (hJ : J.Lawful) (hc : Consistent J h)
    (op : Op) : Consistent J (step J h op) := by
  cases op with
  | createPost post => exact hc.after_createPost post
  | updatePost id post => exact hc.after_updatePost id post
  | deletePost id => exact hc.after_deletePost id
  | getPost id => exact hc.after_getPost hJ id
  | getPostList => exact hc.after_getPostList hJ
  | READCOUNT data => exact hc.after_READCOUNT data

theorem Consistent.after_run {J : JSON} (hJ : J.Lawful) (ops : List Op) :
    ∀ {h : repoHandler}, Consistent J h → Consistent J (run J h ops) := by
  induction ops with
  | nil => intro h hc; exact hc
  | cons op ops ih => intro h hc; exact ih (hc.after_step hJ op)

theorem Consistent.of_empty (J : JSON) (db : DB) (hu : db.up = true) :
    Consistent J ⟨db, Redis.empty⟩ := by
  refine ⟨hu, rfl, ?_, ?_, ?_, ?_, ?_, ?_, ?_⟩ <;> intros <;>
    simp_all [Redis.empty, Redis.intKey, Redis.envelope, Redis.counter]

/-! ## Reads on a consistent store return what the durable store holds -/

namespace repoHandler

theorem hitContent_post {J : JSON} {h : repoHandler} (hc : Consistent J h) {id : Int}
    {c : String} (hh : hitContent J h.rdh redPostKey (formatInt id) = some c) :
    ∃ row, h.dbh.lookup id = some row ∧ (J.unmarshalPost c).1 = row.toPost := by
  unfold hitContent at hh
  cases hv : h.rdh.envelope redPostKey (formatInt id) with
  | none => simp [hv] at hh
  | some s =>
    simp only [hv] at hh
    split at hh
    · rename_i hle
      simp only [Option.some.injEq] at hh
      subst hh
      exact hc.postFresh id s hv hle
    · cases hh

theorem hitContent_list {J : JSON} {h : repoHandler} (hc : Consistent J h)
    {c : String} (hh : hitContent J h.rdh redPostListKey "" = some c) :
    (J.unmarshalPosts c).1 = h.dbh.rows.map Row.toPost := by
  unfold hitContent at hh
  cases hv : h.rdh.envelope redPostListKey "" with
  | none => simp [hv] at hh
  | some s =>
    simp only [hv] at hh
    split at hh
    · rename_i hle
      simp only [Option.some.injEq] at hh
      subst hh
      exact hc.listFresh s hv hle
    · cases hh

theorem getPost_of_consistent {J : JSON} {h : repoHandler} (hc : Consistent J h) (id : Int) :
    (getPost J h id).1 =
      match h.dbh.lookup id with
      | some row => .ok row.toPost
      | none => .error Err.pgNoRows := by
  cases hh : hitContent J h.rdh redPostKey (formatInt id) with
  | some c =>
    rw [getPost_hit J hc.rdUp (hc.changeInt _ _) hh]
    obtain ⟨row, hl, hp⟩ := hitContent_post hc hh
    simp [hl, hp]
  | none =>
    rw [getPost_miss J hc.rdUp hc.dbUp (hc.changeInt _ _) hh]
    cases hl : h.dbh.lookup id <;> rfl

theorem getPostList_of_consistent {J : JSON} {h : repoHandler} (hc : Consistent J h) :
    (getPostList J h).1 = .ok (h.dbh.rows.map Row.toPost) := by
  cases hh : hitContent J h.rdh redPostListKey "" with
  | some c =>
    rw [getPostList_hit J hc.rdUp (hc.changeInt _ _) hh, hitContent_list hc hh]
  | none =>
    rw [getPostList_miss J hc.rdUp hc.dbUp (hc.changeInt _ _) hh]

theorem updatePost_lookup {h : repoHandler} {id : Int} {post : postInput}
    (hok : (updatePost h id post).1.2 = none) :
    (updatePost h id post).2.dbh.lookup id = some (updPost id post).toRow := by
  unfold updatePost at hok ⊢
  cases hd : dbHandler.updatePost h.dbh (updPost id post) with
  | error e => simp [hd] at hok
  | ok db1 =>
    obtain ⟨-, hex, hdb⟩ := dbHandler.updatePost_ok hd
    subst hdb
    exact List.find?_map_replace_same _ _ _ rfl hex

theorem deletePost_lookup {h : repoHandler} {id : Int}
    (hok : (deletePost h id).1 = none) :
    (deletePost h id).2.dbh.lookup id = none := by
  unfold deletePost at hok ⊢
  cases hd : dbHandler.deletePost h.dbh id with
  | error e => simp [hd] at hok
  | ok db1 =>
    obtain ⟨-, -, hdb⟩ := dbHandler.deletePost_ok hd
    subst hdb
    exact List.find?_filter_same _ _

theorem createPost_lookup {h : repoHandler} {post : postInput}
    (hok : (createPost h post).1.2 = none) :
    (createPost h post).2.dbh.lookup (createPost h post).1.1 =
        some ⟨(createPost h post).1.1, post.Title, post.Description, post.ShortText,
          post.FullText, post.URI⟩ ∧
      ⟨(createPost h post).1.1, post.Title, post.Description, post.ShortText,
          post.FullText, post.URI⟩ ∈ (createPost h post).2.dbh.rows := by
  unfold createPost at hok ⊢
  rcases hd : dbHandler.createPost h.dbh (newPost post) with ⟨res, db1⟩
  cases res with
  | error e => simp [hd] at hok
  | ok p =>
    obtain ⟨-, hnone, hp, hdb⟩ := dbHandler.createPost_ok hd
    subst hdb hp
    simp only [DB.lookup] at hnone ⊢
    constructor
    · simp only [List.find?_append, hnone, Option.none_or]
      simp [Post.toRow, newPost]
    · simp [Post.toRow, newPost]

end repoHandler

/-! ## Lemmas: `refJSON` satisfies the round-trip laws -/

namespace JSONText

theorem expect_append (l rest : List Char) : expect l (l ++ rest) = some rest := by
  induction l with
  | nil => cases rest <;> rfl
  | cons c cs ih => simp [expect, ih]

theorem readString_escape (s rest : List Char) :
    readString (escape s ++ '"' :: rest) = some (s, rest) := by
  induction s with
  | nil => rw [escape, List.nil_append, readString.eq_def]; simp
  | cons c cs ih =>
    by_cases h1 : c = '"'
    · subst h1
      rw [escape, if_pos (Or.inl rfl), List.cons_append, List.cons_append, readString.eq_def]
      simp [ih]
    · by_cases h2 : c = '\\'
      · subst h2
        rw [escape, if_pos (Or.inr rfl), List.cons_append, List.cons_append, readString.eq_def]
        simp [ih]
      · rw [escape, if_neg (by simp [h1, h2]), List.cons_append, readString.eq_def]
        simp [ih, h1, h2]

theorem readField_escape (lit s rest : List Char) :
    readField lit (lit ++ (escape s ++ '"' :: rest)) = some (s, rest) := by
  simp [readField, expect_append, readString_escape]

theorem readNat_of_parseDigits (xs : List Char) (acc n : Nat) (x : Char) (rest : List Char)
    (hp : parseDigits xs acc = some n) (hx : digitVal x = none) :
    readNat (xs ++ x :: rest) acc = (n, x :: rest) := by
  induction xs generalizing acc with
  | nil =>
    simp only [parseDigits, Option.some.injEq] at hp
    simp [readNat, hx, hp]
  | cons c cs ih =>
    simp only [parseDigits] at hp
    cases hd : digitVal c with
    | none => simp [hd] at hp
    | some d =>
      simp only [hd] at hp
      simp [readNat, hd, ih _ hp]

theorem natDigits_head_digit (n : Nat) :
    ∃ c cs, natDigits n = c :: cs ∧ (digitVal c).isSome = true ∧ c ≠ '-' := by
  have hp := parseDigits_natDigits n
  cases hd : natDigits n with
  | nil => exact absurd hd (natDigits_ne_nil n)
  | cons c cs =>
    rw [hd] at hp
    simp only [parseDigits] at hp
    cases hv : digitVal c with
    | none => simp [hv] at hp
    | some d =>
      refine ⟨c, cs, rfl, by rw [hv]; rfl, ?_⟩
      rintro rfl
      simp [digitVal] at hv

theorem readInt_formatInt (n : Int) (x : Char) (rest : List Char) (hx : digitVal x = none) :
    readInt ((formatInt n).data ++ x :: rest) = some (n, x :: rest) := by
  cases n with
  | ofNat n =>
    obtain ⟨c, cs, hd, hc, hm⟩ := natDigits_head_digit n
    have hr := readNat_of_parseDigits (natDigits n) 0 n x rest (parseDigits_natDigits n) hx
    simp only [formatInt]
    rw [hd] at hr ⊢
    simp only [readInt, List.cons_append, hm, if_false, hc, if_true]
    simp only [List.cons_append] at hr
    simp [hr]
  | negSucc n =>
    obtain ⟨c, cs, hd, hc, hm⟩ := natDigits_head_digit (n + 1)
    have hr := readNat_of_parseDigits (natDigits (n + 1)) 0 (n + 1) x rest
      (parseDigits_natDigits (n + 1)) hx
    simp only [formatInt]
    rw [hd] at hr ⊢
    simp only [readInt, List.cons_append, if_true, hc]
    simp only [List.cons_append] at hr
    simp only [hr, Option.some.injEq, Prod.mk.injEq, and_true]
    rw [Int.negSucc_eq]; push_cast; ring

theorem readContainer_containerChars (c : RedisContainer) :
    readContainer (containerChars c) = some c := by
  have hc : digitVal ',' = none := by decide
  simp [containerChars, readContainer, expect, readInt_formatInt _ _ _ hc, readString_escape]

theorem readPost_postChars (p : Post) (rest : List Char) :
    readPost (postChars p ++ rest) = some (p, rest) := by
  have hc : digitVal ',' = none := by decide
  have hb : digitVal '\x7d' = none := by decide
  simp [postChars, readPost, readField, expect, readInt_formatInt _ _ _ hc,
    readInt_formatInt _ _ _ hb, readString_escape]

theorem postChars_ne_nil (p : Post) : postChars p ≠ [] := by
  simp [postChars]

theorem postsBody_length (ps : List Post) : ps.length ≤ (postsBody ps).length := by
  induction ps with
  | nil => simp
  | cons p ps ih =>
    cases ps with
    | nil =>
      have := List.length_pos.mpr (postChars_ne_nil p)
      simp only [postsBody, List.length_singleton]
      omega
    | cons q qs =>
      simp only [postsBody, List.length_append, List.length_cons] at ih ⊢
      omega

theorem readPosts_postsBody (fuel : Nat) (p : Post) (ps : List Post)
    (hf : ps.length < fuel) :
    readPosts fuel (postsBody (p :: ps) ++ [']']) = some (p :: ps) := by
  induction fuel generalizing p ps with
  | zero => omega
  | succ f ih =>
    cases ps with
    | nil => simp [postsBody, readPosts, readPost_postChars]
    | cons q qs =>
      have hq : qs.length < f := by simp only [List.length_cons] at hf; omega
      simp only [postsBody, readPosts, List.append_assoc, List.cons_append, readPost_postChars]
      have := ih q qs hq
      simp only [postsBody] at this
      simp [this]

theorem readArray_postsBody (ps : List Post) :
    readArray ('[' :: postsBody ps ++ [']']) = some ps := by
  cases ps with
  | nil => simp [readArray, postsBody]
  | cons p ps =>
    have hlen := postsBody_length (p :: ps)
    have hne : postsBody (p :: ps) ++ [']'] ≠ [']'] := by
      intro h
      have := congrArg List.length h
      simp only [List.length_append, List.length_singleton, List.length_cons] at this hlen
      omega
    simp only [readArray, List.cons_append, if_true, hne, if_false]
    apply readPosts_postsBody
    simp only [List.length_append, List.length_singleton, List.length_cons] at hlen ⊢
    omega

end JSONText

theorem refJSON_lawful : refJSON.Lawful where
  container c := by
    simp [refJSON, JSONText.readContainer_containerChars]
  post p := by
    have := JSONText.readPost_postChars p []
    simp only [List.append_nil] at this
    simp [refJSON, this]
  posts ps := by
    have := JSONText.readArray_postsBody ps
    simp only [List.cons_append] at this
    simp [refJSON, this]

/-! ## Lemmas: frame of the counter increments -/

theorem Redis.Incr_toBool {r : Redis} {k : String} (h : (r.Incr k).toBool = true) :
    r.up = true ∧ r.intKey k := by
  unfold Redis.Incr at h
  split at h
  · rename_i hu
    refine ⟨hu, ?_⟩
    split at h
    · rename_i hk; exact Or.inl hk
    · rename_i v hk
      split at h
      · rename_i n hn
        exact Or.inr ⟨n, by rw [hk, string2ll_eq_some hn]⟩
      · simp [Except.toBool] at h
  · simp [Except.toBool] at h

theorem Redis.Incr_kv_other (r : Redis) (k x : String) (res : Int × Redis)
    (h : r.Incr k = .ok res) (hx : x ≠ k) : res.2.kv x = r.kv x := by
  unfold Redis.Incr at h
  split at h
  · split at h
    · cases h; simp [Function.update_apply, hx]
    · split at h
      · cases h; simp [Function.update_apply, hx]
      · cases h
  · cases h

namespace redisHandler

theorem updateChangeCounter_kv_other (r : Redis) (e k x : String) (hx : x ≠ changeKey e k) :
    (updateChangeCounter r e k).2.kv x = r.kv x := by
  unfold updateChangeCounter
  cases h : r.Incr (changeKey e k) with
  | error err => rfl
  | ok res =>
    obtain ⟨c, r1⟩ := res
    exact Redis.Incr_kv_other r _ x _ h hx

theorem updateChangeCounter_up (r : Redis) (e k : String) :
    (updateChangeCounter r e k).2.up = r.up := by
  unfold updateChangeCounter Redis.Incr
  split <;> rename_i h
  · split at h
    · split at h
      · cases h; rfl
      · split at h
        · cases h; rfl
        · cases h
    · cases h
  · rfl

end redisHandler

namespace repoHandler

theorem getPost_dbh (J : JSON) (h : repoHandler) (id : Int) : (getPost J h id).2.dbh = h.dbh := by
  unfold getPost
  cases redisHandler.get J h.rdh redPostKey (formatInt id) with
  | panic => rfl
  | ok c => rfl
  | error e =>
    simp only
    cases dbHandler.getPost h.dbh id with
    | error e2 => rfl
    | ok post =>
      simp only
      cases redisHandler.set J (redisHandler.updateChangeCounter h.rdh redPostKey (formatInt id)).2
        redPostKey (formatInt id) (J.marshalPost post)
        (redisHandler.updateChangeCounter h.rdh redPostKey (formatInt id)).1 <;> rfl

theorem getPostList_dbh (J : JSON) (h : repoHandler) : (getPostList J h).2.dbh = h.dbh := by
  unfold getPostList
  cases redisHandler.get J h.rdh redPostListKey "" with
  | panic => rfl
  | ok c => rfl
  | error e =>
    simp only
    cases dbHandler.getPostList h.dbh with
    | error e2 => rfl
    | ok posts =>
      simp only
      cases redisHandler.set J (redisHandler.updateChangeCounter h.rdh redPostListKey "").2
        redPostListKey "" (J.marshalPosts posts)
        (redisHandler.updateChangeCounter h.rdh redPostListKey "").1 <;> rfl

end repoHandler

namespace repoHandler

theorem getPost_kv_other (J : JSON) (h : repoHandler) (id : Int) (x : String)
    (h1 : x ≠ redisHandler.changeKey redPostKey (formatInt id))
    (h2 : x ≠ redisHandler.entityKey redPostKey (formatInt id)) :
    (getPost J h id).2.rdh.kv x = h.rdh.kv x := by
  unfold getPost
  cases redisHandler.get J h.rdh redPostKey (formatInt id) with
  | panic => rfl
  | ok c => rfl
  | error e =>
    simp only
    cases dbHandler.getPost h.dbh id with
    | error e2 => rfl
    | ok post =>
      simp only
      cases hs : redisHandler.set J (redisHandler.updateChangeCounter h.rdh redPostKey (formatInt id)).2
        redPostKey (formatInt id) (J.marshalPost post)
        (redisHandler.updateChangeCounter h.rdh redPostKey (formatInt id)).1 with
      | error e3 => exact redisHandler.updateChangeCounter_kv_other _ _ _ _ h1
      | ok rd2 =>
        simp only
        unfold redisHandler.set Redis.Set at hs
        split at hs
        · cases hs
          simp only [Function.update_apply, h2, if_false]
          exact redisHandler.updateChangeCounter_kv_other _ _ _ _ h1
        · cases hs

theorem getPost_readCounter (J : JSON) (h : repoHandler) (id id2 : Int) :
    (getPost J h id).2.rdh.readCounter id2 = h.rdh.readCounter id2 := by
  unfold Redis.readCounter Redis.counter
  rw [getPost_kv_other J h id _ (redisHandler.readKey_ne_change _ _ _ _)
    (redisHandler.readKey_ne_entityKey_post _ _ _)]

end repoHandler

theorem PostRepr.READCOUNT_dbh (data : Post) (h : repoHandler) :
    (PostRepr.READCOUNT data h).2.dbh = h.dbh := rfl

theorem PostRepr.READCOUNT_eq {h : repoHandler} (data : Post) (hu : h.rdh.up = true)
    (hk : h.rdh.intKey (redisHandler.readKey redPostKey (formatInt data.ID))) :
    PostRepr.READCOUNT data h =
      (toInt32 (h.rdh.readCounter data.ID + 1),
        { h with rdh := h.rdh.bump (redisHandler.readKey redPostKey (formatInt data.ID)) }) := by
  simp [PostRepr.READCOUNT, PostRepr.getReadCounter,
    repoHandler.updateReadCounter_spec data.ID hu hk]

theorem run_append (J : JSON) (h : repoHandler) (ops1 ops2 : List Op) :
    run J h (ops1 ++ ops2) = run J (run J h ops1) ops2 := by
  simp [run, List.foldl_append]

theorem run_replicate_READCOUNT (J : JSON) (data : Post) (n : Nat) :
    ∀ h : repoHandler, Consistent J h →
      (run J h (List.replicate n (Op.READCOUNT data))).dbh = h.dbh ∧
      (run J h (List.replicate n (Op.READCOUNT data))).rdh.readCounter data.ID =
        h.rdh.readCounter data.ID + n := by
  induction n with
  | zero => intro h _; simp [run]
  | succ n ih =>
    intro h hc
    have hstep : step J h (Op.READCOUNT data) = (PostRepr.READCOUNT data h).2 := rfl
    have hc1 : Consistent J (PostRepr.READCOUNT data h).2 := hc.after_READCOUNT data
    obtain ⟨h1, h2⟩ := ih _ hc1
    simp only [List.replicate_succ, run, List.foldl_cons, hstep] at h1 h2 ⊢
    rw [h1, h2, PostRepr.READCOUNT_eq data hc.rdUp (hc.readInt _ _)]
    refine ⟨rfl, ?_⟩
    simp only [Redis.readCounter]
    rw [Redis.bump_counter_same]
    push_cast
    ring

/-! ## Lemmas: a thread that runs alone does what the sequential function does -/

theorem System.exec_cons (J : JSON) (s : System) (i : Nat) (sched : List Nat) :
    System.exec J s (i :: sched) = System.exec J (System.step J s i) sched := rfl

theorem System.step_single (J : JSON) (h : repoHandler) (l : Bool) (t : Thread) :
    System.step J ⟨h, l, [t]⟩ 0 =
      match t.step J h l with
      | none => ⟨h, l, [t]⟩
      | some r => ⟨r.2.1, r.2.2, [r.1]⟩ := by
  simp only [System.step, List.get?_cons_zero]
  cases t.step J h l with
  | none => rfl
  | some r => rfl

theorem System.exec_getDone (J : JSON) (h : repoHandler) (l : Bool) (r : Outcome Post)
    (sched : List Nat) (hs : ∀ i ∈ sched, i = 0) :
    System.exec J ⟨h, l, [.getDone r]⟩ sched = ⟨h, l, [.getDone r]⟩ := by
  induction sched with
  | nil => rfl
  | cons i is ih =>
    have hi : i = 0 := hs i (List.mem_cons_self _ _)
    subst hi
    rw [System.exec_cons, System.step_single]
    exact ih (fun j hj => hs j (List.mem_cons_of_mem _ hj))

theorem System.exec_updDone (J : JSON) (h : repoHandler) (l : Bool) (r : Post × Option Err)
    (sched : List Nat) (hs : ∀ i ∈ sched, i = 0) :
    System.exec J ⟨h, l, [.updDone r]⟩ sched = ⟨h, l, [.updDone r]⟩ := by
  induction sched with
  | nil => rfl
  | cons i is ih =>
    have hi : i = 0 := hs i (List.mem_cons_self _ _)
    subst hi
    rw [System.exec_cons, System.step_single]
    exact ih (fun j hj => hs j (List.mem_cons_of_mem _ hj))

theorem System.reader_from_miss (J : JSON) (h : repoHandler) (l : Bool) (id : Int) :
    System.exec J ⟨h, l, [.getMiss id]⟩ [0, 0, 0] =
      match dbHandler.getPost h.dbh id with
      | .error e => ⟨h, l, [.getDone (.error e)]⟩
      | .ok post =>
        match redisHandler.set J (redisHandler.updateChangeCounter h.rdh redPostKey
            (formatInt id)).2 redPostKey (formatInt id) (J.marshalPost post)
            (redisHandler.updateChangeCounter h.rdh redPostKey (formatInt id)).1 with
        | .error _ =>
          ⟨{ h with rdh := (redisHandler.updateChangeCounter h.rdh redPostKey (formatInt id)).2 }, l,
            [.getDone .panic]⟩
        | .ok rd2 => ⟨{ h with rdh := rd2 }, l, [.getDone (.ok post)]⟩ := by
  rw [System.exec_cons, System.step_single]
  simp only [Thread.step]
  cases dbHandler.getPost h.dbh id with
  | error e => exact System.exec_getDone J h l _ _ (by simp)
  | ok post =>
    simp only
    rw [System.exec_cons, System.step_single]
    simp only [Thread.step]
    rw [System.exec_cons, System.step_single]
    simp only [Thread.step]
    cases redisHandler.set J (redisHandler.updateChangeCounter h.rdh redPostKey
      (formatInt id)).2 redPostKey (formatInt id) (J.marshalPost post)
      (redisHandler.updateChangeCounter h.rdh redPostKey (formatInt id)).1 <;> rfl

theorem repoHandler.getPost_from_miss (J : JSON) (h : repoHandler) (id : Int) (e : Err)
    (hg : redisHandler.get J h.rdh redPostKey (formatInt id) = .error e) :
    repoHandler.getPost J h id =
      match dbHandler.getPost h.dbh id with
      | .error e => (.error e, h)
      | .ok post =>
        match redisHandler.set J (redisHandler.updateChangeCounter h.rdh redPostKey
            (formatInt id)).2 redPostKey (formatInt id) (J.marshalPost post)
            (redisHandler.updateChangeCounter h.rdh redPostKey (formatInt id)).1 with
        | .error _ =>
          (.panic,
            { h with rdh := (redisHandler.updateChangeCounter h.rdh redPostKey (formatInt id)).2 })
        | .ok rd2 => (.ok post, { h with rdh := rd2 }) := by
  simp only [repoHandler.getPost, hg]

theorem System.reader_alone (J : JSON) (h : repoHandler) (l : Bool) (id : Int) :
    System.exec J ⟨h, l, [.getCall id]⟩ [0, 0, 0, 0, 0] =
      ⟨(repoHandler.getPost J h id).2, l, [.getDone (repoHandler.getPost J h id).1]⟩ := by
  have hmiss : ∀ e, redisHandler.get J h.rdh redPostKey (formatInt id) = .error e →
      System.exec J ⟨h, l, [.getMiss id]⟩ [0, 0, 0] =
        ⟨(repoHandler.getPost J h id).2, l, [.getDone (repoHandler.getPost J h id).1]⟩ := by
    intro e hg
    rw [System.reader_from_miss, repoHandler.getPost_from_miss J h id e hg]
    cases dbHandler.getPost h.dbh id with
    | error e2 => rfl
    | ok post =>
      simp only
      cases redisHandler.set J (redisHandler.updateChangeCounter h.rdh redPostKey
        (formatInt id)).2 redPostKey (formatInt id) (J.marshalPost post)
        (redisHandler.updateChangeCounter h.rdh redPostKey (formatInt id)).1 <;> rfl
  rw [System.exec_cons, System.step_single]
  simp only [Thread.step]
  cases hcc : redisHandler.getChangeCounter h.rdh redPostKey (formatInt id) with
  | panic =>
    simp only
    rw [System.exec_getDone J h l _ _ (by simp)]
    simp [repoHandler.getPost, redisHandler.get, hcc]
  | ok c =>
    simp only
    rw [System.exec_cons, System.step_single]
    simp only [Thread.step]
    cases hg : h.rdh.Get (redisHandler.entityKey redPostKey (formatInt id)) with
    | error e =>
      simp only
      exact hmiss e (by simp [redisHandler.get, hcc, hg])
    | ok responseData =>
      simp only
      by_cases hv : c > (J.unmarshalContainer responseData).1.Version
      · simp only [hv, if_true]
        exact hmiss Err.ErrRedisCacheVersion (by simp [redisHandler.get, hcc, hg, hv])
      · simp only [hv, if_false]
        rw [System.exec_getDone J h l _ _ (by simp)]
        simp [repoHandler.getPost, redisHandler.get, hcc, hg, hv]
  | error e0 =>
    simp only
    rw [System.exec_cons, System.step_single]
    simp only [Thread.step]
    cases hg : h.rdh.Get (redisHandler.entityKey redPostKey (formatInt id)) with
    | error e =>
      simp only
      exact hmiss e (by simp [redisHandler.get, hcc, hg])
    | ok responseData =>
      simp only
      by_cases hv : 0 > (J.unmarshalContainer responseData).1.Version
      · simp only [hv, if_true]
        exact hmiss Err.ErrRedisCacheVersion (by simp [redisHandler.get, hcc, hg, hv])
      · simp only [hv, if_false]
        rw [System.exec_getDone J h l _ _ (by simp)]
        simp [repoHandler.getPost, redisHandler.get, hcc, hg, hv]

theorem System.writer_alone (J : JSON) (h : repoHandler) (id : Int) (post : postInput) :
    System.exec J ⟨h, false, [.updCall id post]⟩ [0, 0, 0, 0, 0] =
      ⟨(repoHandler.updatePost h id post).2, false,
        [.updDone (repoHandler.updatePost h id post).1]⟩ := by
  rw [System.exec_cons, System.step_single]
  simp only [Thread.step, Bool.false_eq_true, if_false]
  rw [System.exec_cons, System.step_single]
  simp only [Thread.step, repoHandler.updatePost]
  cases hd : dbHandler.updatePost h.dbh (repoHandler.updPost id post) with
  | error e =>
    simp only
    rw [System.exec_cons, System.step_single]
    simp only [Thread.step]
    exact System.exec_updDone J h false _ _ (by simp)
  | ok db1 =>
    simp only
    rw [System.exec_cons, System.step_single]
    simp only [Thread.step]
    rw [System.exec_cons, System.step_single]
    simp only [Thread.step]
    rw [System.exec_cons, System.step_single]
    simp only [Thread.step]
    rfl

/-! ## The claims -/

/-- C1 (sequential staleness). Start from an empty cache store and any content
of the durable store, both stores reachable, and execute any finite sequence of
calls one after another. A following `getPost id` returns exactly the entity
the durable store holds under `id`, and the durable store's not-found error
when there is none. In particular, right after a successful `updatePost id f`
it returns the fields `f`, and right after a successful `deletePost id` it
returns not-found although the envelope stored for `id` is still the same. -/
theorem repoHandler.getPost_sequential (J : JSON) (hJ : J.Lawful) (db0 : DB)
    (hdb : db0.up = true) (ops : List Op) (id : Int) :
    (repoHandler.getPost J (run J ⟨db0, Redis.empty⟩ ops) id).1 =
        (match (run J ⟨db0, Redis.empty⟩ ops).dbh.lookup id with
          | some row => Outcome.ok row.toPost
          | none => Outcome.error Err.pgNoRows) ∧
      (∀ f, (repoHandler.updatePost (run J ⟨db0, Redis.empty⟩ ops) id f).1.2 = none →
        (repoHandler.getPost J (repoHandler.updatePost (run J ⟨db0, Redis.empty⟩ ops) id f).2 id).1 =
          Outcome.ok (repoHandler.updPost id f)) ∧
      ((repoHandler.deletePost (run J ⟨db0, Redis.empty⟩ ops) id).1 = none →
        (repoHandler.getPost J (repoHandler.deletePost (run J ⟨db0, Redis.empty⟩ ops) id).2 id).1 =
            Outcome.error Err.pgNoRows ∧
          (repoHandler.deletePost (run J ⟨db0, Redis.empty⟩ ops) id).2.rdh.envelope redPostKey
              (formatInt id) =
            (run J ⟨db0, Redis.empty⟩ ops).rdh.envelope redPostKey (formatInt id)) := by
  have hc : Consistent J (run J ⟨db0, Redis.empty⟩ ops) :=
    Consistent.after_run hJ ops (Consistent.of_empty J db0 hdb)
  refine ⟨repoHandler.getPost_of_consistent hc id, ?_, ?_⟩
  · intro f hok
    rw [repoHandler.getPost_of_consistent (hc.after_updatePost id f), repoHandler.updatePost_lookup hok]
    rfl
  · intro hok
    constructor
    · rw [repoHandler.getPost_of_consistent (hc.after_deletePost id), repoHandler.deletePost_lookup hok]
    · rw [repoHandler.deletePost_eq id hc.rdUp (hc.changeInt _ _) (hc.changeInt _ _)]
      cases dbHandler.deletePost (run J ⟨db0, Redis.empty⟩ ops).dbh id with
      | error e => rfl
      | ok db1 =>
        simp [Redis.envelope, Redis.kv_bump, redisHandler.entityKey_post_ne_change]

/-- C2 (write atomicity). Whenever the durable-store call made by `createPost`,
`updatePost` or `deletePost` returns an error, the operation returns that error
and the cache store is exactly what it was before the call: the string under
every key, so every change counter (collection scope and every single-entity
scope) and every stored envelope, is unchanged. -/
theorem repoHandler.write_atomicity (h : repoHandler) (id : Int) (post : postInput) (e : Err) :
    ((dbHandler.createPost h.dbh (repoHandler.newPost post)).1 = .error e →
        (repoHandler.createPost h post).1.2 = some e ∧
          (repoHandler.createPost h post).2.rdh = h.rdh) ∧
      (dbHandler.updatePost h.dbh (repoHandler.updPost id post) = .error e →
        (repoHandler.updatePost h id post).1.2 = some e ∧
          (repoHandler.updatePost h id post).2.rdh = h.rdh) ∧
      (dbHandler.deletePost h.dbh id = .error e →
        (repoHandler.deletePost h id).1 = some e ∧ (repoHandler.deletePost h id).2.rdh = h.rdh) := by
  refine ⟨?_, ?_, ?_⟩ <;> intro hd
  · unfold repoHandler.createPost
    rcases hc : dbHandler.createPost h.dbh (repoHandler.newPost post) with ⟨res, db1⟩
    rw [hc] at hd
    simp only at hd
    subst hd
    exact ⟨rfl, rfl⟩
  · simp [repoHandler.updatePost, hd]
  · simp [repoHandler.deletePost, hd]

/-- C5 (hit/stale rule of `redisHandler.get`). On a reachable cache store whose
counter text for the scope, if any, is an integer, let `c` be the scope's
change counter (0 when absent). If the stored envelope decodes to
`(v, content)`, `get` returns `content` when `c ≤ v` and the "cache outdated"
error when `c > v`; if no envelope is stored it returns the miss error `redis.Nil`. (`get` only
issues `GET` commands: it returns no new store state.) -/
theorem redisHandler.get_decision (J : JSON) (rh : Redis) (entity key : String)
    (hup : rh.up = true)
    (hcnt : ∀ s, rh.kv (redisHandler.changeKey entity key) = some s → (Atoi s).isSome = true) :
    (∀ s v content, rh.kv (redisHandler.entityKey entity key) = some s →
        J.unmarshalContainer s = (⟨v, content⟩, true) →
        redisHandler.get J rh entity key =
          if rh.changeCounter entity key ≤ v then Outcome.ok content
          else Outcome.error Err.ErrRedisCacheVersion) ∧
      (rh.kv (redisHandler.entityKey entity key) = none →
        redisHandler.get J rh entity key = Outcome.error Err.redisNil) := by
  have hget : redisHandler.getChangeCounter rh entity key = Outcome.ok (rh.changeCounter entity key) ∨
      (∃ err, redisHandler.getChangeCounter rh entity key = Outcome.error err) ∧
        rh.changeCounter entity key = 0 := by
    unfold redisHandler.getChangeCounter Redis.Get Redis.changeCounter Redis.counter
    cases hk : rh.kv (redisHandler.changeKey entity key) with
    | none => right; simp [hup]
    | some s =>
      left
      have := hcnt s hk
      cases ha : Atoi s with
      | none => simp [ha] at this
      | some n => simp [hup, ha]
  constructor
  · intro s v content hs hdec
    rcases hget with hg | ⟨⟨err, hg⟩, h0⟩
    · simp only [redisHandler.get, hg, Redis.Get, hup, hs, hdec, if_true]
      by_cases hle : rh.changeCounter entity key ≤ v
      · simp [hle, not_lt.mpr hle]
      · simp [hle, not_le.mp hle]
    · simp only [redisHandler.get, hg, Redis.Get, hup, hs, hdec, if_true, h0]
      by_cases hle : (0 : Int) ≤ v
      · simp [hle, not_lt.mpr hle]
      · simp [hle, not_le.mp hle]
  · intro hs
    rcases hget with hg | ⟨⟨err, hg⟩, h0⟩
    · simp [redisHandler.get, hg, Redis.Get, hup, hs]
    · simp [redisHandler.get, hg, Redis.Get, hup, hs]

/-- C3, as stated, fails: with the cache store unreachable and post 7 in the
durable store, `updatePost 7`, `deletePost 7` and `createPost` each succeed
(nil error) while the failed `INCR` is only logged, so the collection counter
and the counter of post 7 stay what they were instead of rising by 1. -/
theorem repoHandler.write_without_bump :
    ((repoHandler.updatePost redisDown7 7 input2).1.2 = none ∧
        (repoHandler.updatePost redisDown7 7 input2).2.rdh.changeCounter redPostListKey "" =
          redisDown7.rdh.changeCounter redPostListKey "" ∧
        (repoHandler.updatePost redisDown7 7 input2).2.rdh.changeCounter redPostKey (formatInt 7) =
          redisDown7.rdh.changeCounter redPostKey (formatInt 7) ∧
        (repoHandler.updatePost redisDown7 7 input2).2.rdh.changeCounter redPostListKey "" ≠
          redisDown7.rdh.changeCounter redPostListKey "" + 1) ∧
      ((repoHandler.deletePost redisDown7 7).1 = none ∧
        (repoHandler.deletePost redisDown7 7).2.rdh.changeCounter redPostListKey "" ≠
          redisDown7.rdh.changeCounter redPostListKey "" + 1 ∧
        (repoHandler.deletePost redisDown7 7).2.rdh.changeCounter redPostKey (formatInt 7) ≠
          redisDown7.rdh.changeCounter redPostKey (formatInt 7) + 1) ∧
      ((repoHandler.createPost redisDown7 input2).1.2 = none ∧
        (repoHandler.createPost redisDown7 input2).2.rdh.changeCounter redPostListKey "" ≠
          redisDown7.rdh.changeCounter redPostListKey "" + 1) := by
  refine ⟨⟨by decide, by decide, by decide, by decide⟩, ⟨by decide, by decide, by decide⟩,
    ⟨by decide, by decide⟩⟩

/-- C3, amended (scope isolation of write invalidation). For ids `A ≠ B`: a
successful `updatePost A _` or `deletePost A` whose counter increments succeed
raises the collection counter by exactly 1 and the counter of `A` by exactly 1
and leaves the counter of `B` as it was; a successful `createPost` whose
counter increment succeeds raises the collection counter by exactly 1 and
leaves every single-entity counter as it was. No write operation, successful
or not, changes a stored envelope. -/
theorem repoHandler.write_scope_isolation (h : repoHandler) (A B : Int) (post : postInput)
    (hAB : A ≠ B) :
    ((h.rdh.Incr (redisHandler.changeKey redPostListKey "")).toBool = true →
      (h.rdh.Incr (redisHandler.changeKey redPostKey (formatInt A))).toBool = true →
      ((repoHandler.updatePost h A post).1.2 = none →
        (repoHandler.updatePost h A post).2.rdh.changeCounter redPostListKey "" =
            h.rdh.changeCounter redPostListKey "" + 1 ∧
          (repoHandler.updatePost h A post).2.rdh.changeCounter redPostKey (formatInt A) =
            h.rdh.changeCounter redPostKey (formatInt A) + 1 ∧
          (repoHandler.updatePost h A post).2.rdh.changeCounter redPostKey (formatInt B) =
            h.rdh.changeCounter redPostKey (formatInt B)) ∧
      ((repoHandler.deletePost h A).1 = none →
        (repoHandler.deletePost h A).2.rdh.changeCounter redPostListKey "" =
            h.rdh.changeCounter redPostListKey "" + 1 ∧
          (repoHandler.deletePost h A).2.rdh.changeCounter redPostKey (formatInt A) =
            h.rdh.changeCounter redPostKey (formatInt A) + 1 ∧
          (repoHandler.deletePost h A).2.rdh.changeCounter redPostKey (formatInt B) =
            h.rdh.changeCounter redPostKey (formatInt B))) ∧
    ((h.rdh.Incr (redisHandler.changeKey redPostListKey "")).toBool = true →
      (repoHandler.createPost h post).1.2 = none →
        (repoHandler.createPost h post).2.rdh.changeCounter redPostListKey "" =
            h.rdh.changeCounter redPostListKey "" + 1 ∧
          ∀ id, (repoHandler.createPost h post).2.rdh.changeCounter redPostKey (formatInt id) =
            h.rdh.changeCounter redPostKey (formatInt id)) ∧
    (∀ k,
      ((repoHandler.createPost h post).2.rdh.envelope redPostKey k = h.rdh.envelope redPostKey k ∧
        (repoHandler.createPost h post).2.rdh.envelope redPostListKey k =
          h.rdh.envelope redPostListKey k) ∧
      ((repoHandler.updatePost h A post).2.rdh.envelope redPostKey k = h.rdh.envelope redPostKey k ∧
        (repoHandler.updatePost h A post).2.rdh.envelope redPostListKey k =
          h.rdh.envelope redPostListKey k) ∧
      ((repoHandler.deletePost h A).2.rdh.envelope redPostKey k = h.rdh.envelope redPostKey k ∧
        (repoHandler.deletePost h A).2.rdh.envelope redPostListKey k =
          h.rdh.envelope redPostListKey k)) := by
  have hpl : ∀ k, redisHandler.changeKey redPostKey k ≠ redisHandler.changeKey redPostListKey "" :=
    fun k => redisHandler.changeKey_post_ne_list k ""
  have hBA : redisHandler.changeKey redPostKey (formatInt B) ≠
      redisHandler.changeKey redPostKey (formatInt A) := by
    simpa [redisHandler.changeKey_inj, redisHandler.formatInt_eq_iff] using hAB.symm
  refine ⟨?_, ?_, ?_⟩
  · intro hl hA
    obtain ⟨hu, hkl⟩ := Redis.Incr_toBool hl
    obtain ⟨-, hkA⟩ := Redis.Incr_toBool hA
    constructor
    · intro hok
      rw [repoHandler.updatePost_eq A post hu hkl hkA] at hok ⊢
      cases hd : dbHandler.updatePost h.dbh (repoHandler.updPost A post) with
      | error e => simp [hd] at hok
      | ok db1 =>
        simp only [Redis.changeCounter]
        refine ⟨?_, ?_, ?_⟩
        · rw [Redis.bump_counter_other _ (hpl _).symm, Redis.bump_counter_same]
        · rw [Redis.bump_counter_same, Redis.bump_counter_other _ (hpl _)]
        · rw [Redis.bump_counter_other _ hBA, Redis.bump_counter_other _ (hpl _)]
    · intro hok
      rw [repoHandler.deletePost_eq A hu hkl hkA] at hok ⊢
      cases hd : dbHandler.deletePost h.dbh A with
      | error e => simp [hd] at hok
      | ok db1 =>
        simp only [Redis.changeCounter]
        refine ⟨?_, ?_, ?_⟩
        · rw [Redis.bump_counter_other _ (hpl _).symm, Redis.bump_counter_same]
        · rw [Redis.bump_counter_same, Redis.bump_counter_other _ (hpl _)]
        · rw [Redis.bump_counter_other _ hBA, Redis.bump_counter_other _ (hpl _)]
  · intro hl hok
    obtain ⟨hu, hkl⟩ := Redis.Incr_toBool hl
    rw [repoHandler.createPost_eq post hu hkl] at hok ⊢
    rcases hd : dbHandler.createPost h.dbh (repoHandler.newPost post) with ⟨res, db1⟩
    cases res with
    | error e => simp [hd] at hok
    | ok p =>
      simp only [Redis.changeCounter]
      refine ⟨Redis.bump_counter_same _ _, fun id => ?_⟩
      rw [Redis.bump_counter_other _ (hpl _)]
  · intro k
    have e1 : ∀ (r : Redis) (e2 k2 : String),
        (redisHandler.updateChangeCounter r e2 k2).2.envelope redPostKey k =
          r.envelope redPostKey k := fun r e2 k2 =>
      redisHandler.updateChangeCounter_kv_other r e2 k2 _
        (redisHandler.entityKey_post_ne_change _ _ _)
    have e2 : ∀ (r : Redis) (e2 k2 : String),
        (redisHandler.updateChangeCounter r e2 k2).2.envelope redPostListKey k =
          r.envelope redPostListKey k := fun r e2 k2 =>
      redisHandler.updateChangeCounter_kv_other r e2 k2 _
        (redisHandler.entityKey_list_ne_change _ _ _)
    refine ⟨?_, ?_, ?_⟩
    · unfold repoHandler.createPost
      rcases dbHandler.createPost h.dbh (repoHandler.newPost post) with ⟨res, db1⟩
      cases res with
      | error e => exact ⟨rfl, rfl⟩
      | ok p => exact ⟨e1 _ _ _, e2 _ _ _⟩
    · unfold repoHandler.updatePost
      cases dbHandler.updatePost h.dbh (repoHandler.updPost A post) with
      | error e => exact ⟨rfl, rfl⟩
      | ok r => exact ⟨(e1 _ _ _).trans (e1 _ _ _), (e2 _ _ _).trans (e2 _ _ _)⟩
    · unfold repoHandler.deletePost
      cases dbHandler.deletePost h.dbh A with
      | error e => exact ⟨rfl, rfl⟩
      | ok r => exact ⟨(e1 _ _ _).trans (e1 _ _ _), (e2 _ _ _).trans (e2 _ _ _)⟩

/-- C4 (round trip). In every state reached from an empty cache store by a
sequence of calls (so the caches may already be populated by earlier reads),
if `createPost f` succeeds and returns `id`, then an immediately following
`getPost id` returns the entity with identity `id` and the title,
description, short text, full text and URI of `f`, and an immediately
following `getPostList` (directly after the create, or after that `getPost`)
returns a collection containing an entity with identity `id`. -/
theorem repoHandler.createPost_round_trip (J : JSON) (hJ : J.Lawful) (db0 : DB)
    (hdb : db0.up = true) (ops : List Op) (f : postInput)
    (hok : (repoHandler.createPost (run J ⟨db0, Redis.empty⟩ ops) f).1.2 = none) :
    (repoHandler.getPost J (repoHandler.createPost (run J ⟨db0, Redis.empty⟩ ops) f).2
        (repoHandler.createPost (run J ⟨db0, Redis.empty⟩ ops) f).1.1).1 =
      Outcome.ok ⟨(repoHandler.createPost (run J ⟨db0, Redis.empty⟩ ops) f).1.1,
        f.Title, f.Description, f.ShortText, f.FullText, f.URI, 0⟩ ∧
    (∃ ps, (repoHandler.getPostList J
        (repoHandler.createPost (run J ⟨db0, Redis.empty⟩ ops) f).2).1 = Outcome.ok ps ∧
      ∃ p ∈ ps, p.ID = (repoHandler.createPost (run J ⟨db0, Redis.empty⟩ ops) f).1.1) ∧
    (∃ ps, (repoHandler.getPostList J
        (repoHandler.getPost J (repoHandler.createPost (run J ⟨db0, Redis.empty⟩ ops) f).2
          (repoHandler.createPost (run J ⟨db0, Redis.empty⟩ ops) f).1.1).2).1 = Outcome.ok ps ∧
      ∃ p ∈ ps, p.ID = (repoHandler.createPost (run J ⟨db0, Redis.empty⟩ ops) f).1.1) := by
  have hc : Consistent J (run J ⟨db0, Redis.empty⟩ ops) :=
    Consistent.after_run hJ ops (Consistent.of_empty J db0 hdb)
  have hc1 := hc.after_createPost f
  have hc2 := hc1.after_getPost hJ (repoHandler.createPost (run J ⟨db0, Redis.empty⟩ ops) f).1.1
  obtain ⟨hl, hmem⟩ := repoHandler.createPost_lookup hok
  refine ⟨?_, ?_, ?_⟩
  · rw [repoHandler.getPost_of_consistent hc1, hl]
    rfl
  · refine ⟨_, repoHandler.getPostList_of_consistent hc1, ?_⟩
    exact ⟨_, List.mem_map_of_mem Row.toPost hmem, rfl⟩
  · refine ⟨_, repoHandler.getPostList_of_consistent hc2, ?_⟩
    rw [repoHandler.getPost_dbh]
    exact ⟨_, List.mem_map_of_mem Row.toPost hmem, rfl⟩

/-- C6 (miss repopulation, then hit). Whenever `getPost id` takes the miss/stale
path (the cache read returns an error), the durable store holds `e` under `id`
and the counter increment succeeds: the call returns `e`, the change counter of
`id` is exactly 1 higher than before, and the envelope stored for `id` is the
serialization of (that new counter value, serialization of `e`). An immediately
following `getPost id` is a cache hit: the cache read returns the serialization
of `e`, the call returns `e`, and the handler state (every counter, every
envelope) is unchanged. -/
theorem repoHandler.getPost_miss_then_hit (J : JSON) (hJ : J.Lawful) (h : repoHandler)
    (id : Int) (e : Post) (err : Err)
    (hmiss : redisHandler.get J h.rdh redPostKey (formatInt id) = Outcome.error err)
    (hdb : dbHandler.getPost h.dbh id = .ok e)
    (hincr : (h.rdh.Incr (redisHandler.changeKey redPostKey (formatInt id))).toBool = true) :
    (repoHandler.getPost J h id).1 = Outcome.ok e ∧
      (repoHandler.getPost J h id).2.rdh.changeCounter redPostKey (formatInt id) =
        h.rdh.changeCounter redPostKey (formatInt id) + 1 ∧
      (repoHandler.getPost J h id).2.rdh.envelope redPostKey (formatInt id) =
        some (J.marshalContainer
          ⟨h.rdh.changeCounter redPostKey (formatInt id) + 1, J.marshalPost e⟩) ∧
      redisHandler.get J (repoHandler.getPost J h id).2.rdh redPostKey (formatInt id) =
        Outcome.ok (J.marshalPost e) ∧
      repoHandler.getPost J (repoHandler.getPost J h id).2 id =
        (Outcome.ok e, (repoHandler.getPost J h id).2) := by
  obtain ⟨hu, hk⟩ := Redis.Incr_toBool hincr
  have hd : h.dbh.up = true := by
    unfold dbHandler.getPost at hdb
    split at hdb
    · assumption
    · cases hdb
  have hh : repoHandler.hitContent J h.rdh redPostKey (formatInt id) = none := by
    cases hc : repoHandler.hitContent J h.rdh redPostKey (formatInt id) with
    | none => rfl
    | some c => rw [repoHandler.get_of_hit J hu hk hc] at hmiss; cases hmiss
  rw [dbHandler.getPost_eq id hd] at hdb
  rw [repoHandler.getPost_miss J hu hd hk hh]
  cases hl : h.dbh.lookup id with
  | none => rw [hl] at hdb; cases hdb
  | some row =>
    rw [hl] at hdb
    simp only [Except.ok.injEq] at hdb
    subst hdb
    simp only
    have hne := redisHandler.change_ne_entityKey_post (formatInt id) redPostKey (formatInt id)
    have hcnt : (repoHandler.repopulated J h.rdh redPostKey (formatInt id)
        (J.marshalPost row.toPost)).changeCounter redPostKey (formatInt id) =
        h.rdh.changeCounter redPostKey (formatInt id) + 1 := by
      apply Redis.counter_of_some
      rw [repoHandler.kv_repopulated]
      simp [hne]
    have henv : (repoHandler.repopulated J h.rdh redPostKey (formatInt id)
        (J.marshalPost row.toPost)).envelope redPostKey (formatInt id) =
        some (J.marshalContainer
          ⟨h.rdh.changeCounter redPostKey (formatInt id) + 1, J.marshalPost row.toPost⟩) := by
      simp [Redis.envelope, repoHandler.kv_repopulated]
    have hk1 : (repoHandler.repopulated J h.rdh redPostKey (formatInt id)
        (J.marshalPost row.toPost)).intKey (redisHandler.changeKey redPostKey (formatInt id)) :=
      repoHandler.repopulated_intKey _ _ _ _ _ _ hne hk
    have hhit : repoHandler.hitContent J (repoHandler.repopulated J h.rdh redPostKey (formatInt id)
        (J.marshalPost row.toPost)) redPostKey (formatInt id) = some (J.marshalPost row.toPost) := by
      simp [repoHandler.hitContent, henv, hcnt, JSON.version, JSON.content, hJ.container]
    refine ⟨trivial, hcnt, henv, repoHandler.get_of_hit J hu hk1 hhit, ?_⟩
    rw [repoHandler.getPost_hit J (h := ⟨h.dbh, repoHandler.repopulated J h.rdh redPostKey
      (formatInt id) (J.marshalPost row.toPost)⟩) hu hk1 hhit, hJ.post]

/-- C7, as stated, fails: after 2147483647 accesses to `READCOUNT` of post 7,
`getPost 7` followed by one more access raises the read counter to 2147483648
but `READCOUNT` returns -2147483648, the int32 conversion of that value. -/
theorem PostRepr.READCOUNT_wraps :
    (repoHandler.getPost refJSON manyReads 7).1 = Outcome.ok post7 ∧
      (PostRepr.READCOUNT post7 (repoHandler.getPost refJSON manyReads 7).2).2.rdh.readCounter 7 =
        2147483648 ∧
      (PostRepr.READCOUNT post7 (repoHandler.getPost refJSON manyReads 7).2).1 = -2147483648 := by
  have hc0 : Consistent refJSON ⟨db7, Redis.empty⟩ := Consistent.of_empty refJSON db7 rfl
  have hc : Consistent refJSON manyReads := Consistent.after_run refJSON_lawful _ hc0
  obtain ⟨hdb, hcnt⟩ := run_replicate_READCOUNT refJSON post7 2147483647 _ hc0
  have hcnt2 : manyReads.rdh.readCounter 7 = 2147483647 := by
    have h0 : (Redis.empty).readCounter 7 = 0 := rfl
    have : manyReads.rdh.readCounter 7 = (Redis.empty).readCounter 7 + (2147483647 : Nat) := hcnt
    rw [this, h0]; rfl
  have hg := hc.after_getPost refJSON_lawful 7
  have hr := repoHandler.getPost_readCounter refJSON manyReads 7 7
  refine ⟨?_, ?_, ?_⟩
  · rw [repoHandler.getPost_of_consistent hc]
    have : manyReads.dbh = db7 := hdb
    rw [this]
    rfl
  · rw [PostRepr.READCOUNT_eq post7 hg.rdUp (hg.readInt _ _)]
    simp only [Redis.readCounter] at hr hcnt2 ⊢
    have e7 : post7.ID = 7 := rfl
    rw [e7, Redis.bump_counter_same, hr, hcnt2]
    rfl
  · rw [PostRepr.READCOUNT_eq post7 hg.rdUp (hg.readInt _ _)]
    have e7 : post7.ID = 7 := rfl
    simp only [e7, hr, hcnt2]
    decide

/-- C7, amended. In every state reached from an empty cache store by a sequence
of calls, each `getPost id` that returns a representation, hit or miss,
followed by one access to its `READCOUNT` field raises the read counter of `id`
by exactly 1; `READCOUNT` returns the int32 conversion of the new counter
value, which is the new value itself as long as that is below 2^31. The access
changes no change counter, no envelope and no other post's read counter. -/
theorem PostRepr.READCOUNT_after_getPost (J : JSON) (hJ : J.Lawful) (db0 : DB)
    (hdb : db0.up = true) (ops : List Op) (id : Int) (p : Post)
    (hget : (repoHandler.getPost J (run J ⟨db0, Redis.empty⟩ ops) id).1 = Outcome.ok p) :
    (PostRepr.READCOUNT p (repoHandler.getPost J (run J ⟨db0, Redis.empty⟩ ops) id).2).2.rdh.readCounter id =
        (run J ⟨db0, Redis.empty⟩ ops).rdh.readCounter id + 1 ∧
      (PostRepr.READCOUNT p (repoHandler.getPost J (run J ⟨db0, Redis.empty⟩ ops) id).2).1 =
        toInt32 ((run J ⟨db0, Redis.empty⟩ ops).rdh.readCounter id + 1) ∧
      ((run J ⟨db0, Redis.empty⟩ ops).rdh.readCounter id + 1 < 2147483648 →
        (PostRepr.READCOUNT p (repoHandler.getPost J (run J ⟨db0, Redis.empty⟩ ops) id).2).1 =
          (run J ⟨db0, Redis.empty⟩ ops).rdh.readCounter id + 1) ∧
      (∀ e k,
        (PostRepr.READCOUNT p (repoHandler.getPost J (run J ⟨db0, Redis.empty⟩ ops) id).2).2.rdh.changeCounter e k =
          (repoHandler.getPost J (run J ⟨db0, Redis.empty⟩ ops) id).2.rdh.changeCounter e k) ∧
      (∀ k,
        (PostRepr.READCOUNT p (repoHandler.getPost J (run J ⟨db0, Redis.empty⟩ ops) id).2).2.rdh.envelope redPostKey k =
            (repoHandler.getPost J (run J ⟨db0, Redis.empty⟩ ops) id).2.rdh.envelope redPostKey k ∧
          (PostRepr.READCOUNT p (repoHandler.getPost J (run J ⟨db0, Redis.empty⟩ ops) id).2).2.rdh.envelope redPostListKey k =
            (repoHandler.getPost J (run J ⟨db0, Redis.empty⟩ ops) id).2.rdh.envelope redPostListKey k) ∧
      (∀ id2, id2 ≠ id →
        (PostRepr.READCOUNT p (repoHandler.getPost J (run J ⟨db0, Redis.empty⟩ ops) id).2).2.rdh.readCounter id2 =
          (run J ⟨db0, Redis.empty⟩ ops).rdh.readCounter id2) := by
  have hc : Consistent J (run J ⟨db0, Redis.empty⟩ ops) :=
    Consistent.after_run hJ ops (Consistent.of_empty J db0 hdb)
  have hg := hc.after_getPost hJ id
  have hid : p.ID = id := by
    rw [repoHandler.getPost_of_consistent hc] at hget
    cases hl : (run J ⟨db0, Redis.empty⟩ ops).dbh.lookup id with
    | none => rw [hl] at hget; cases hget
    | some row =>
      rw [hl] at hget
      simp only [Outcome.ok.injEq] at hget
      rw [← hget, Row.toPost_ID, DB.lookup_id hl]
  have hr := repoHandler.getPost_readCounter J (run J ⟨db0, Redis.empty⟩ ops) id
  rw [PostRepr.READCOUNT_eq p hg.rdUp (hg.readInt _ _), hid]
  simp only [Redis.readCounter] at hr
  refine ⟨?_, ?_, ?_, ?_, ?_, ?_⟩
  · simp only [Redis.readCounter]
    rw [Redis.bump_counter_same, hr]
  · simp only [Redis.readCounter, hr]
  · intro h2
    have h1 := hc.readNonneg redPostKey (formatInt id)
    simp only [Redis.readCounter, hr] at h2 ⊢
    unfold toInt32
    omega
  · intro e k
    simp only [Redis.changeCounter]
    rw [Redis.bump_counter_other _ (redisHandler.change_ne_readKey _ _ _ _)]
  · intro k
    simp [Redis.envelope, Redis.kv_bump, redisHandler.entityKey_post_ne_readKey,
      redisHandler.entityKey_list_ne_readKey]
  · intro id2 hne
    simp only [Redis.readCounter]
    rw [Redis.bump_counter_other _ (by
      simpa [redisHandler.readKey_inj, redisHandler.formatInt_eq_iff] using hne), hr]

set_option maxRecDepth 100000

/-- C8, at the failing input. Text that is not an envelope is stored under the
envelope key of post 7 and no change counter exists; the durable store holds
post 7. `getPost 7` returns the zero value `Post{}` with a nil error instead
of the stored post. The same happens when the envelope decodes, is as new as
the counter, and its content is not a post. -/
theorem repoHandler.getPost_malformed_envelope :
    (refJSON.unmarshalContainer "garbage").2 = false ∧
      dbHandler.getPost malformedEnvelope.dbh 7 = .ok post7 ∧
      (repoHandler.getPost refJSON malformedEnvelope 7).1 = Outcome.ok Post.zero ∧
      (refJSON.unmarshalPost "garbage").2 = false ∧
      dbHandler.getPost malformedContent.dbh 7 = .ok post7 ∧
      (repoHandler.getPost refJSON malformedContent 7).1 = Outcome.ok Post.zero := by
  refine ⟨by decide, rfl, by decide, by decide, rfl, by decide⟩

/-- C9, at the failing input. With the cache store unreachable and the durable
store holding post 7, `getPost 7` and `getPostList` abort through `log.Panic`
(the envelope write fails) instead of returning what the durable store
returned. When the durable store is unreachable as well, its error is
returned. -/
theorem repoHandler.getPost_panics_cache_down (J : JSON) (kv : String → Option String) :
    dbHandler.getPost (cacheDown kv).dbh 7 = .ok post7 ∧
      (repoHandler.getPost J (cacheDown kv) 7).1 = Outcome.panic ∧
      (repoHandler.getPostList J (cacheDown kv)).1 = Outcome.panic ∧
      (repoHandler.getPost J ⟨{ db7 with up := false }, ⟨false, kv⟩⟩ 7).1 =
        Outcome.error Err.pgDown ∧
      (repoHandler.getPostList J ⟨{ db7 with up := false }, ⟨false, kv⟩⟩).1 =
        Outcome.error Err.pgDown := by
  refine ⟨rfl, ?_, ?_, ?_, ?_⟩ <;>
    simp [repoHandler.getPost, repoHandler.getPostList, redisHandler.get,
      redisHandler.getChangeCounter, Redis.Get, cacheDown, dbHandler.getPost,
      dbHandler.getPostList, db7, DB.lookup, redisHandler.updateChangeCounter, Redis.Incr,
      redisHandler.set, Redis.Set]

/-- C10, at the failing schedule. A `getPost 7` misses and fetches the post,
`updatePost 7` then runs from lock to unlock, and the reader then increments
the counter and writes its envelope. Afterwards the durable store holds the
new fields, the envelope of post 7 holds the old fields with a version equal
to the change counter, and a `getPost 7` that starts only now returns the old
fields. -/
theorem System.stale_read_after_race :
    raceEnd.threads = [.getDone (.ok post7), .updDone (repoHandler.updPost 7 input2, none)] ∧
      raceEnd.locked = false ∧
      raceEnd.h.dbh.lookup 7 = some (repoHandler.updPost 7 input2).toRow ∧
      raceEnd.h.rdh.changeCounter redPostKey (formatInt 7) = 2 ∧
      raceEnd.h.rdh.envelope redPostKey (formatInt 7) =
        some (refJSON.marshalContainer ⟨2, refJSON.marshalPost post7⟩) ∧
      (repoHandler.getPost refJSON raceEnd.h 7).1 = Outcome.ok post7 ∧
      post7 ≠ repoHandler.updPost 7 input2 := by
  refine ⟨by decide, by decide, by decide, by decide, by decide, by decide, by decide⟩

/-! ## Further properties -/

/-- The collection read path follows the same protocol: in every state reached
from an empty cache store by a sequence of calls, `getPostList` returns exactly
the rows the durable store holds. -/
theorem repoHandler.getPostList_sequential (J : JSON) (hJ : J.Lawful) (db0 : DB)
    (hdb : db0.up = true) (ops : List Op) :
    (repoHandler.getPostList J (run J ⟨db0, Redis.empty⟩ ops)).1 =
      Outcome.ok ((run J ⟨db0, Redis.empty⟩ ops).dbh.rows.map Row.toPost) :=
  repoHandler.getPostList_of_consistent
    (Consistent.after_run hJ ops (Consistent.of_empty J db0 hdb))

/-- The keys of the three families never collide for two posts: envelope,
change counter and read counter of post `a` and of post `b` are six distinct
keys when `a ≠ b`, and none is a key of the collection scope. -/
theorem redisHandler.keys_distinct (a b : Int) :
    (redisHandler.entityKey redPostKey (formatInt a) =
        redisHandler.entityKey redPostKey (formatInt b) ↔ a = b) ∧
      (redisHandler.changeKey redPostKey (formatInt a) =
        redisHandler.changeKey redPostKey (formatInt b) ↔ a = b) ∧
      (redisHandler.readKey redPostKey (formatInt a) =
        redisHandler.readKey redPostKey (formatInt b) ↔ a = b) ∧
      redisHandler.entityKey redPostKey (formatInt a) ≠
        redisHandler.changeKey redPostKey (formatInt b) ∧
      redisHandler.readKey redPostKey (formatInt a) ≠
        redisHandler.entityKey redPostKey (formatInt b) ∧
      redisHandler.readKey redPostKey (formatInt a) ≠
        redisHandler.changeKey redPostKey (formatInt b) ∧
      redisHandler.entityKey redPostKey (formatInt a) ≠ redisHandler.entityKey redPostListKey "" ∧
      redisHandler.changeKey redPostKey (formatInt a) ≠ redisHandler.changeKey redPostListKey "" := by
  refine ⟨?_, ?_, ?_, redisHandler.entityKey_post_ne_change _ _ _,
    redisHandler.readKey_ne_entityKey_post _ _ _, redisHandler.readKey_ne_change _ _ _ _,
    redisHandler.entityKey_post_ne_list _ _, redisHandler.changeKey_post_ne_list _ _⟩
  · rw [redisHandler.entityKey_inj, redisHandler.formatInt_eq_iff]
  · rw [redisHandler.changeKey_inj, redisHandler.formatInt_eq_iff]
  · rw [redisHandler.readKey_inj, redisHandler.formatInt_eq_iff]

/-! ## The claims at concrete inputs -/

/-- C1 at a concrete input: `getPost 7` fills the cache, `updatePost 7` changes
the title to "T2", and the next `getPost 7` returns the new fields; after
`getPost 7` and `deletePost 7` the envelope of post 7 is still stored and
`getPost 7` returns not-found. -/
theorem repoHandler.getPost_sequential_witness :
    refJSON.Lawful ∧ db7.up = true ∧
      (repoHandler.getPost refJSON
          (run refJSON ⟨db7, Redis.empty⟩ [Op.getPost 7, Op.updatePost 7 input2]) 7).1 =
        Outcome.ok ⟨7, "T2", "d2", "s2", "f2", "/t2", 0⟩ ∧
      ((run refJSON ⟨db7, Redis.empty⟩ [Op.getPost 7, Op.deletePost 7]).rdh.envelope redPostKey
          (formatInt 7)).isSome = true ∧
      (repoHandler.getPost refJSON
          (run refJSON ⟨db7, Redis.empty⟩ [Op.getPost 7, Op.deletePost 7]) 7).1 =
        Outcome.error Err.pgNoRows :=
  ⟨refJSON_lawful, rfl, by
    rw [(repoHandler.getPost_sequential refJSON refJSON_lawful db7 rfl
      [Op.getPost 7, Op.updatePost 7 input2] 7).1]
    decide, by decide, by
    rw [(repoHandler.getPost_sequential refJSON refJSON_lawful db7 rfl
      [Op.getPost 7, Op.deletePost 7] 7).1]
    decide⟩

/-- C2 at a concrete input: with the durable store unreachable, the three
writers return its error and leave the cache store as it was. -/
theorem repoHandler.write_atomicity_witness :
    ((repoHandler.createPost dbDown7 input2).1.2 = some Err.pgDown ∧
        (repoHandler.createPost dbDown7 input2).2.rdh = dbDown7.rdh) ∧
      ((repoHandler.updatePost dbDown7 7 input2).1.2 = some Err.pgDown ∧
        (repoHandler.updatePost dbDown7 7 input2).2.rdh = dbDown7.rdh) ∧
      ((repoHandler.deletePost dbDown7 7).1 = some Err.pgDown ∧
        (repoHandler.deletePost dbDown7 7).2.rdh = dbDown7.rdh) :=
  ⟨(repoHandler.write_atomicity dbDown7 7 input2 Err.pgDown).1 rfl,
    (repoHandler.write_atomicity dbDown7 7 input2 Err.pgDown).2.1 rfl,
    (repoHandler.write_atomicity dbDown7 7 input2 Err.pgDown).2.2 rfl⟩

/-- C3 (amended) at a concrete input: on `cold7`, `updatePost 7` and `deletePost 7` raise
the collection counter and the counter of post 7 from 0 to 1 and leave the
counter of post 8 at 0; `createPost` raises the collection counter only. -/
theorem repoHandler.write_scope_isolation_witness :
    (7 : Int) ≠ 8 ∧
      ((repoHandler.updatePost cold7 7 input2).2.rdh.changeCounter redPostListKey "" =
          cold7.rdh.changeCounter redPostListKey "" + 1 ∧
        (repoHandler.updatePost cold7 7 input2).2.rdh.changeCounter redPostKey (formatInt 7) =
          cold7.rdh.changeCounter redPostKey (formatInt 7) + 1 ∧
        (repoHandler.updatePost cold7 7 input2).2.rdh.changeCounter redPostKey (formatInt 8) =
          cold7.rdh.changeCounter redPostKey (formatInt 8)) ∧
      ((repoHandler.deletePost cold7 7).2.rdh.changeCounter redPostListKey "" =
          cold7.rdh.changeCounter redPostListKey "" + 1 ∧
        (repoHandler.deletePost cold7 7).2.rdh.changeCounter redPostKey (formatInt 7) =
          cold7.rdh.changeCounter redPostKey (formatInt 7) + 1 ∧
        (repoHandler.deletePost cold7 7).2.rdh.changeCounter redPostKey (formatInt 8) =
          cold7.rdh.changeCounter redPostKey (formatInt 8)) ∧
      ((repoHandler.createPost cold7 input2).2.rdh.changeCounter redPostListKey "" =
          cold7.rdh.changeCounter redPostListKey "" + 1 ∧
        ∀ id, (repoHandler.createPost cold7 input2).2.rdh.changeCounter redPostKey (formatInt id) =
          cold7.rdh.changeCounter redPostKey (formatInt id)) :=
  ⟨by decide,
    ((repoHandler.write_scope_isolation cold7 7 8 input2 (by decide)).1
      (by decide) (by decide)).1 (by decide),
    ((repoHandler.write_scope_isolation cold7 7 8 input2 (by decide)).1
      (by decide) (by decide)).2 (by decide),
    (repoHandler.write_scope_isolation cold7 7 8 input2 (by decide)).2.1 (by decide) (by decide)⟩

/-- C4 at a concrete input: both caches are populated by reads, then
`createPost` returns identity 8; `getPost 8` returns the new fields and both
`getPostList` calls contain identity 8. -/
theorem repoHandler.createPost_round_trip_witness :
    refJSON.Lawful ∧ db7.up = true ∧
      (repoHandler.createPost (run refJSON ⟨db7, Redis.empty⟩ [Op.getPost 7, Op.getPostList])
        input2).1 = (8, none) ∧
      (repoHandler.getPost refJSON
          (repoHandler.createPost (run refJSON ⟨db7, Redis.empty⟩ [Op.getPost 7, Op.getPostList])
            input2).2
          (repoHandler.createPost (run refJSON ⟨db7, Redis.empty⟩ [Op.getPost 7, Op.getPostList])
            input2).1.1).1 =
        Outcome.ok ⟨(repoHandler.createPost
          (run refJSON ⟨db7, Redis.empty⟩ [Op.getPost 7, Op.getPostList]) input2).1.1,
          "T2", "d2", "s2", "f2", "/t2", 0⟩ :=
  ⟨refJSON_lawful, rfl, by decide,
    (repoHandler.createPost_round_trip refJSON refJSON_lawful db7 rfl
      [Op.getPost 7, Op.getPostList] input2 (by decide)).1⟩

/-- C5 at a concrete input: counter 3, envelope of version 5: a hit. -/
theorem redisHandler.get_decision_witness :
    cached7.up = true ∧
      redisHandler.get refJSON cached7 redPostKey (formatInt 7) =
        if cached7.changeCounter redPostKey (formatInt 7) ≤ 5 then Outcome.ok "x"
        else Outcome.error Err.ErrRedisCacheVersion :=
  ⟨rfl, (redisHandler.get_decision refJSON cached7 redPostKey (formatInt 7) rfl
    (by
      intro s hs
      have h3 : cached7.kv (redisHandler.changeKey redPostKey (formatInt 7)) =
          some (formatInt 3) := by decide
      rw [h3] at hs
      cases hs
      decide)).1 (refJSON.marshalContainer ⟨5, "x"⟩) 5 "x" (by decide) (by decide)⟩

/-- C6 at a concrete input: the first `getPost 7` on a cold cache. -/
theorem repoHandler.getPost_miss_then_hit_witness :
    redisHandler.get refJSON cold7.rdh redPostKey (formatInt 7) = Outcome.error Err.redisNil ∧
      (repoHandler.getPost refJSON cold7 7).1 = Outcome.ok post7 ∧
      (repoHandler.getPost refJSON cold7 7).2.rdh.changeCounter redPostKey (formatInt 7) =
        cold7.rdh.changeCounter redPostKey (formatInt 7) + 1 ∧
      repoHandler.getPost refJSON (repoHandler.getPost refJSON cold7 7).2 7 =
        (Outcome.ok post7, (repoHandler.getPost refJSON cold7 7).2) :=
  ⟨by decide,
    (repoHandler.getPost_miss_then_hit refJSON refJSON_lawful cold7 7 post7 Err.redisNil
      (by decide) rfl (by decide)).1,
    (repoHandler.getPost_miss_then_hit refJSON refJSON_lawful cold7 7 post7 Err.redisNil
      (by decide) rfl (by decide)).2.1,
    (repoHandler.getPost_miss_then_hit refJSON refJSON_lawful cold7 7 post7 Err.redisNil
      (by decide) rfl (by decide)).2.2.2.2⟩

/-- C7 (amended) at a concrete input: the first read of post 7. -/
theorem PostRepr.READCOUNT_after_getPost_witness :
    (repoHandler.getPost refJSON (run refJSON ⟨db7, Redis.empty⟩ []) 7).1 = Outcome.ok post7 ∧
      (PostRepr.READCOUNT post7
          (repoHandler.getPost refJSON (run refJSON ⟨db7, Redis.empty⟩ []) 7).2).2.rdh.readCounter 7 =
        (run refJSON ⟨db7, Redis.empty⟩ []).rdh.readCounter 7 + 1 ∧
      (PostRepr.READCOUNT post7
          (repoHandler.getPost refJSON (run refJSON ⟨db7, Redis.empty⟩ []) 7).2).1 =
        toInt32 ((run refJSON ⟨db7, Redis.empty⟩ []).rdh.readCounter 7 + 1) :=
  ⟨by decide,
    (PostRepr.READCOUNT_after_getPost refJSON refJSON_lawful db7 rfl [] 7 post7 (by decide)).1,
    (PostRepr.READCOUNT_after_getPost refJSON refJSON_lawful db7 rfl [] 7 post7 (by decide)).2.1⟩

/-- The collection read at a concrete input: after a list read, a create and an
update, `getPostList` returns the two current rows. -/
theorem repoHandler.getPostList_sequential_witness :
    refJSON.Lawful ∧ db7.up = true ∧
      (repoHandler.getPostList refJSON (run refJSON ⟨db7, Redis.empty⟩
          [Op.getPostList, Op.createPost input2, Op.updatePost 7 input2])).1 =
        Outcome.ok [⟨7, "T2", "d2", "s2", "f2", "/t2", 0⟩, ⟨8, "T2", "d2", "s2", "f2", "/t2", 0⟩] :=
  ⟨refJSON_lawful, rfl, by
    rw [repoHandler.getPostList_sequential refJSON refJSON_lawful db7 rfl
      [Op.getPostList, Op.createPost input2, Op.updatePost 7 input2]]
    decide⟩
